import Mathlib

/-!
Verification development for the doctrail enrichment engine.

Shallow embedding of the parts of the source that the claims C1..C10 are
about, translated from:
  src/src/schema_managers.py      (language + enum list validation)
  src/src/pydantic_schema.py      (generated structured-output validators)
  src/src/llm_operations.py       (truncation, per-row pipeline, batch skip logic)
  src/src/db_operations.py        (audit log, derived table upsert, direct update)
  src/src/utils/query_utils.py    (query planning rewrites)
  src/src/enrichment_config.py    (strategy resolution)

Conventions: Python strings become Lean `String`/`List Char`; Python ints
become `Int`/`Nat` with explicit conversions; dynamic dicts become
association lists; fallible code returns `Option`/`Except`; network and
database side effects become explicit state passing plus an event trace.
-/

namespace Doctrail

/-! ### ASCII case folding

Python `str.lower()` / `str.upper()` are Unicode aware; every use embedded
here compares SQL keywords, language tags and the literal "null", all
ASCII, so ASCII folding is faithful on the inputs that occur. -/

def lowerC (c : Char) : Char :=
  if 65 ≤ c.toNat && c.toNat ≤ 90 then Char.ofNat (c.toNat + 32) else c

def strLower (s : String) : String := ⟨s.data.map lowerC⟩

/-! ### Dynamic (Python) values -/

/-- Dynamic values as handled by the Python runtime for schema fields and
row columns.  Floats do not occur in any claim and are omitted. -/
inductive PyVal where
  | vNone
  | vStr (s : String)
  | vInt (n : Int)
  | vBool (b : Bool)
  | vList (l : List PyVal)
  | vDict (l : List (String × PyVal))
deriving Repr

/-- Python truthiness for the values above (`bool(x)`). -/
def PyVal.truthy : PyVal → Bool
  | .vNone => false
  | .vStr s => !(s = "")
  | .vInt n => !(n = 0)
  | .vBool b => b
  | .vList l => !l.isEmpty
  | .vDict l => !l.isEmpty

/-- Python `str(x)` for the values above (only the cases exercised by the
pipeline matter; `str` on a string is the identity, which is the case the
language validator meets). -/
def pyStr : PyVal → String
  | .vNone => "None"
  | .vStr s => s
  | .vInt n => toString n
  | .vBool b => if b then "True" else "False"
  | .vList _ => "[list]"
  | .vDict _ => "[dict]"

/-- Minimal JSON rendering used where the source calls `json.dumps` /
`model_dump_json`.  Claims never inspect the rendered text beyond equality
on concrete inputs, so escaping is restricted to the quote character. -/
def jsonEscape (s : String) : String :=
  ⟨s.data.foldr (fun c acc => if c = '"' then '\\' :: '"' :: acc else c :: acc) []⟩

mutual
def jsonOfPyVal : PyVal → String
  | .vNone => "null"
  | .vStr s => "\"" ++ jsonEscape s ++ "\""
  | .vInt n => toString n
  | .vBool b => if b then "true" else "false"
  | .vList l => "[" ++ jsonOfList l ++ "]"
  | .vDict l => "\x7b" ++ jsonOfFields l ++ "\x7d"

def jsonOfList : List PyVal → String
  | [] => ""
  | [x] => jsonOfPyVal x
  | x :: y :: t => jsonOfPyVal x ++ ", " ++ jsonOfList (y :: t)

def jsonOfFields : List (String × PyVal) → String
  | [] => ""
  | [(k, v)] => "\"" ++ jsonEscape k ++ "\": " ++ jsonOfPyVal v
  | (k, v) :: y :: t =>
      "\"" ++ jsonEscape k ++ "\": " ++ jsonOfPyVal v ++ ", " ++ jsonOfFields (y :: t)
end

/-! ### schema_managers.py: language validation (lines 22-69) -/

/-- Python comparison `s <= t` on `str` values: lexicographic on the
sequences of code points, a proper prefix comparing smaller. -/
def pyStrLe : List Char → List Char → Bool
  | [], _ => true
  | _ :: _, [] => false
  | a :: s, b :: t =>
      if a.toNat < b.toNat then true
      else if b.toNat < a.toNat then false
      else pyStrLe s t

/-- Embeds the loop body of `contains_hanzi`, schema_managers.py lines
22-43: each chained comparison `lo <= char <= hi` is two Python string
comparisons against the source's literal bounds.  A Python backslash-u
escape consumes exactly four hex digits, so each bound the source spells
with five hex digits is a TWO-character string: the first four digits
give one BMP code point and the fifth digit stays a literal character
(U+2000 then the digit 0 for the lower bounds, U+2A6D then the letter f
and so on for the upper bounds).  The comparisons are therefore
lexicographic against those two-character strings, reproduced verbatim
below (a Lean backslash-u escape also takes exactly four hex digits);
`char`, bound by `for char in text`, is a single code point. -/
def isHanziChar (char : Char) : Bool :=
  (pyStrLe ['\u4e00'] [char] && pyStrLe [char] ['\u9fff']) ||
  (pyStrLe ['\u3400'] [char] && pyStrLe [char] ['\u4dbf']) ||
  (pyStrLe ['\u2000', '0'] [char] && pyStrLe [char] ['\u2a6d', 'f']) ||
  (pyStrLe ['\u2a70', '0'] [char] && pyStrLe [char] ['\u2b73', 'f']) ||
  (pyStrLe ['\u2b74', '0'] [char] && pyStrLe [char] ['\u2b81', 'f']) ||
  (pyStrLe ['\u2b82', '0'] [char] && pyStrLe [char] ['\u2cea', 'f']) ||
  (pyStrLe ['\uf900'] [char] && pyStrLe [char] ['\ufaff']) ||
  (pyStrLe ['\u2f80', '0'] [char] && pyStrLe [char] ['\u2fa1', 'f'])

def contains_hanzi (text : String) : Bool := text.data.any isHanziChar

/-- Embeds `validate_language`, schema_managers.py lines 46-69.  Empty text
or empty lang short-circuits to `true` (`if not text or not lang`). -/
def validate_language (text lang : String) : Bool :=
  if text = "" || lang = "" then true
  else
    let has := contains_hanzi text
    if strLower lang = "zh" then has
    else if strLower lang = "en" then !has
    else true

/-- CJK ideograph character class as claim C4 words it: U+4E00 to U+9FFF,
U+3400 to U+4DBF, the extension blocks A through F, and the compatibility
blocks.  Written from the claim text (not the code) to compare the two. -/
def claimCJKChar (c : Char) : Bool :=
  let n := c.toNat
  (0x4E00 ≤ n && n ≤ 0x9FFF) ||
  (0x3400 ≤ n && n ≤ 0x4DBF) ||
  (0x20000 ≤ n && n ≤ 0x2A6DF) ||
  (0x2A700 ≤ n && n ≤ 0x2B73F) ||
  (0x2B740 ≤ n && n ≤ 0x2B81F) ||
  (0x2B820 ≤ n && n ≤ 0x2CEAF) ||
  (0x2CEB0 ≤ n && n ≤ 0x2EBEF) ||
  (0xF900 ≤ n && n ≤ 0xFAFF) ||
  (0x2F800 ≤ n && n ≤ 0x2FA1F)

def claimContainsCJK (text : String) : Bool := text.data.any claimCJKChar

/-! ### schema_managers.py: enum list validation (lines 149-238) -/

/-- Error taxonomy of schema_managers.py: `LanguageValidationError` is a
subclass of `SchemaValidationError`; the pipeline retries only the former. -/
inductive ValidationError where
  | schemaErr (msg : String)
  | langErr (msg : String)
deriving Repr, DecidableEq

/-- Configuration of `EnumListSchemaManager.__init__` (lines 152-163).
`min_items` defaults to 0, `max_items` to None, `unique_items` to True. -/
structure EnumListSchema where
  choices : List String
  case_sensitive : Bool
  min_items : Nat
  max_items : Option Nat
  unique_items : Bool
deriving Repr

/-- Embeds the per-item membership loop of `validate_response`
(schema_managers.py lines 190-214): any item outside the choice list
rejects the whole response; case-insensitive mode returns the canonical
spelling from the choices list. -/
def checkEnumItems (m : EnumListSchema) : List String → Except ValidationError (List String)
  | [] => .ok []
  | item :: rest =>
    let okItem : Option String :=
      if m.case_sensitive then
        if m.choices.contains item then some item else none
      else
        m.choices.find? (fun c => strLower c == strLower item)
    match okItem with
    | some canon => (checkEnumItems m rest).map (fun t => canon :: t)
    | none => .error (.schemaErr ("Item not one of the allowed choices: " ++ item))

/-- Embeds the dedup loop of `validate_response` (lines 216-225): first
occurrence kept, order preserved. -/
def dedupeSeen (seen : List String) : List String → List String
  | [] => []
  | x :: xs => if seen.contains x then dedupeSeen seen xs
               else x :: dedupeSeen (x :: seen) xs

def dedupe_preserving_order (xs : List String) : List String := dedupeSeen [] xs

/-- Embeds `EnumListSchemaManager.validate_response` from the parsed item
list on (schema_managers.py lines 190-238).  Python truthiness of
`min_items`/`max_items` is explicit: a 0 bound is not checked. -/
def validate_items (m : EnumListSchema) (parsed : List String) :
    Except ValidationError (List String) := do
  let validated ← checkEnumItems m parsed
  let validated := if m.unique_items then dedupe_preserving_order validated else validated
  if m.min_items ≠ 0 ∧ validated.length < m.min_items then
    .error (.schemaErr ("Response must contain at least " ++ toString m.min_items ++ " items"))
  else if h : m.max_items.isSome then
    let k := m.max_items.get h
    if k ≠ 0 ∧ k < validated.length then
      .error (.schemaErr ("Response must contain at most " ++ toString k ++ " items"))
    else .ok validated
  else .ok validated

/-! ### pydantic_schema.py: the generated structured-output validator for
enum_list fields (lines 71-91).  `yaml_to_pydantic_type` compiles
`enum_list` to `List[Enum]` with `min_length`/`max_length` taken verbatim
from `min_items`/`max_items`; membership comes from the enum coercion, and
no deduplication is part of the generated model (the comment at lines 86-88
defers dedup to post-processing, which the structured pipeline in
llm_operations.py never performs). -/

def pydantic_enum_list_accepts (choices : List String) (minL maxL : Option Nat)
    (xs : List String) : Bool :=
  xs.all (fun x => choices.contains x) &&
  (match minL with | some k => decide (k ≤ xs.length) | none => true) &&
  (match maxL with | some k => decide (xs.length ≤ k) | none => true)

/-! ### llm_operations.py: token estimation and truncation (lines 45-100)

This is the `truncate_input_for_model` that `process_row_structured`
actually calls (the module-local one, llm_operations.py line 65).  The
variant in src/src/llm/token_utils.py, which appends an explicit
"... [TRUNCATED]" marker, is imported only by the unused
src/src/llm/processors/enrichment.py. -/

/-- Embeds `MODEL_CONTEXT_LIMITS`, llm_operations.py lines 46-59. -/
def MODEL_CONTEXT_LIMITS : List (String × Nat) :=
  [("gpt-4o-mini", 128000), ("gpt-4o", 128000), ("gpt-4", 8192),
   ("gpt-4-32k", 32768), ("gpt-3.5-turbo", 16384), ("gpt-3.5-turbo-16k", 16384),
   ("gemini-2.5-flash-preview-05-20", 1000000),
   ("models/gemini-2.5-flash-preview-05-20", 1000000),
   ("gemini-2.5-flash", 1000000), ("models/gemini-2.5-flash", 1000000),
   ("gemini-2.0-flash", 1000000), ("models/gemini-2.0-flash", 1000000)]

/-- Embeds `MODEL_CONTEXT_LIMITS.get(model, 8192)`. -/
def model_context_limit (model : String) : Nat :=
  (MODEL_CONTEXT_LIMITS.lookup model).getD 8192

/-- Embeds `estimate_tokens`, llm_operations.py lines 61-63 (4 chars per
token, floor division). -/
def estimate_tokens (text : String) : Nat := text.length / 4

/-- Position of the last space character, embedding `str.rfind(' ')`
(`none` for the -1 case). -/
def lastSpacePos (l : List Char) : Option Nat :=
  match l with
  | [] => none
  | c :: rest =>
    match lastSpacePos rest with
    | some p => some (p + 1)
    | none => if c = ' ' then some 0 else none

/-- Embeds `truncate_input_for_model`, llm_operations.py lines 65-100.
Arithmetic is over `Int` as in Python.  The word-boundary test
`last_space > max_input_chars * 0.8` uses a float literal in the source;
it is rendered here as the exact rational comparison
`5 * last_space > 4 * max_input_chars` (the double closest to 0.8 is
larger than 4/5 by about 4.4e-17, a gap no integer pair in range
hits; every claim proved below is insensitive to which branch is taken). -/
def truncate_input_for_model (full_prompt input_text model : String)
    (safety_margin : Int) : String × Bool :=
  let context_limit : Int := (model_context_limit model : Int)
  let prompt_tokens : Int := (estimate_tokens full_prompt : Int)
  let input_tokens : Int := (estimate_tokens input_text : Int)
  let total_tokens := prompt_tokens + input_tokens
  let max_allowed_tokens := context_limit - safety_margin
  if total_tokens ≤ max_allowed_tokens then (input_text, false)
  else
    let max_input_tokens := max_allowed_tokens - prompt_tokens
    if max_input_tokens ≤ 0 then ("", true)
    else
      let max_input_chars := max_input_tokens * 4
      let truncated_input : String := ⟨input_text.data.take max_input_chars.toNat⟩
      let truncated_input :=
        if truncated_input.length < input_text.length then
          match lastSpacePos truncated_input.data with
          | some last_space =>
            if 5 * (last_space : Int) > 4 * max_input_chars then
              (⟨truncated_input.data.take last_space⟩ : String)
            else truncated_input
          | none => truncated_input
        else truncated_input
      (truncated_input, true)

/-- Embeds the truncation branch and message assembly of
`process_row_structured`, llm_operations.py lines 693-714: the submitted
user message is `templated_prompt + "\n\n" + final_input_text`, where the
input portion passed through `truncate_input_for_model` when `truncate`
is on (with the default safety margin 2000) and is left whole otherwise. -/
def structured_full_prompt (templated_prompt input_text model : String)
    (truncate : Bool) : String × Bool :=
  let (final_input_text, was_truncated) :=
    if truncate then truncate_input_for_model templated_prompt input_text model 2000
    else (input_text, false)
  (templated_prompt ++ "\n\n" ++ final_input_text, was_truncated)

/-! ### utils/query_utils.py: the regular expressions

The planner uses a fixed handful of `re` patterns, all of the shape
literal / one-or-more-whitespace / one-or-more-digits / end-of-word
lookahead, always with `re.IGNORECASE`.  They are embedded as token lists
over `List Char` with a deterministic greedy matcher; greediness agrees
with the regex engine here because in every pattern a whitespace or digit
run is followed by a token that cannot consume a whitespace or digit.
Python `\s`/`\d`/`\w` are Unicode classes; the embedded ASCII classes
agree on all inputs exercised. -/

inductive Tok where
  | lit (w : List Char)
  | ws
  | digits
  | eow
deriving Repr, DecidableEq

abbrev Pat := List Tok

def isSpaceC (c : Char) : Bool :=
  c = ' ' || c = '\t' || c = '\n' || c = '\r' || c = '\x0b' || c = '\x0c'

def isDigitC (c : Char) : Bool := decide ('0' ≤ c) && decide (c ≤ '9')

def wordCharC (c : Char) : Bool := c.isAlphanum || c = '_'

/-- Case-insensitive literal match; `w` is stored lowercased. -/
def litMatch : List Char → List Char → Option (List Char × List Char)
  | [], s => some ([], s)
  | _ :: _, [] => none
  | w :: ws', c :: cs =>
    if lowerC c = w then (litMatch ws' cs).map (fun x => (c :: x.1, x.2)) else none

def matchTok : Tok → List Char → Option (List Char × List Char)
  | .lit w, s => litMatch w s
  | .ws, s =>
    let m := s.takeWhile isSpaceC
    if m.isEmpty then none else some (m, s.dropWhile isSpaceC)
  | .digits, s =>
    let m := s.takeWhile isDigitC
    if m.isEmpty then none else some (m, s.dropWhile isDigitC)
  | .eow, s =>
    match s with
    | [] => some ([], [])
    | c :: cs => if isSpaceC c then some ([], c :: cs) else none

def matchPat : Pat → List Char → Option (List Char × List Char)
  | [], s => some ([], s)
  | t :: p, s =>
    match matchTok t s with
    | none => none
    | some (m, r) => (matchPat p r).map (fun x => (m ++ x.1, x.2))

/-- Leftmost match: returns (text before, matched text, text after). -/
def findFirst (p : Pat) : List Char → Option (List Char × List Char × List Char)
  | [] => (matchPat p []).map (fun x => ([], x.1, x.2))
  | c :: cs =>
    match matchPat p (c :: cs) with
    | some x => some ([], x.1, x.2)
    | none => (findFirst p cs).map (fun x => (c :: x.1, x.2.1, x.2.2))

def searchPat (p : Pat) (s : List Char) : Bool := (findFirst p s).isSome

/-- Embeds `re.sub` over all non-overlapping leftmost matches, fueled for
structural recursion: every pattern fed to it consumes at least one
character, so `length + 1` fuel always suffices. -/
def subAllFuel (p : Pat) (f : List Char → List Char) : Nat → List Char → List Char
  | 0, s => s
  | fuel + 1, s =>
    match findFirst p s with
    | none => s
    | some (pre, m, r) => pre ++ f m ++ subAllFuel p f fuel r

def subAll (p : Pat) (f : List Char → List Char) (s : List Char) : List Char :=
  subAllFuel p f (s.length + 1) s

/-- Plain substring test on already case-folded character lists. -/
def isSubstr (pat : List Char) : List Char → Bool
  | [] => pat.isEmpty
  | c :: t => pat.isPrefixOf (c :: t) || isSubstr pat t

/-- Embeds Python `pat.upper() in s.upper()` style membership (the code
writes `'WHERE' in query.upper()` and friends). -/
def containsCI (pat s : String) : Bool :=
  isSubstr (pat.data.map lowerC) (s.data.map lowerC)

/-- Word-boundary search (`\bword\b` with IGNORECASE): a case-insensitive
occurrence of `w` whose neighbours are absent or non-word characters. -/
def wordAt (w : List Char) (prev : Option Char) (s : List Char) : Bool :=
  (match prev with | some p => !wordCharC p | none => true) &&
  (match litMatch w s with
   | some (_, r) => match r with | [] => true | c :: _ => !wordCharC c
   | none => false)

def containsWordAux (w : List Char) (prev : Option Char) : List Char → Bool
  | [] => wordAt w prev []
  | c :: t => wordAt w prev (c :: t) || containsWordAux w (some c) t

def containsWordCI (w s : String) : Bool :=
  containsWordAux (w.data.map lowerC) none s.data

/-! ### utils/query_utils.py: the planner rewrites (lines 8-103) -/

def selectStarPat : Pat := [.lit ("select").data, .ws, .lit ("*").data, .ws, .lit ("from").data]

/-- Replacement `\1rowid, *\2`: the matched text split at its `*`. -/
def replSelectStar (m : List Char) : List Char :=
  (m.takeWhile (fun c => c ≠ '*')) ++ ("rowid, ").data ++ m.dropWhile (fun c => c ≠ '*')

/-- Embeds `ensure_rowid_in_query`, query_utils.py lines 8-41. -/
def ensure_rowid_in_query (query : String) : String :=
  if containsWordCI ("rowid") query then query
  else if searchPat selectStarPat query.data then
    ⟨subAll selectStarPat replSelectStar query.data⟩
  else query

def colL (column : String) : List Char := column.data.map lowerC

/-- Pattern `WHERE\s+col\s+IS\s+NULL\s+AND`. -/
def nullPat1 (column : String) : Pat :=
  [.lit ("where").data, .ws, .lit (colL column), .ws, .lit ("is").data, .ws,
   .lit ("null").data, .ws, .lit ("and").data]

/-- Pattern `WHERE\s+col\s+IS\s+NULL(?=\s|$)`. -/
def nullPat2 (column : String) : Pat :=
  [.lit ("where").data, .ws, .lit (colL column), .ws, .lit ("is").data, .ws,
   .lit ("null").data, .eow]

/-- Pattern `AND\s+col\s+IS\s+NULL(?=\s|$)`. -/
def nullPat3 (column : String) : Pat :=
  [.lit ("and").data, .ws, .lit (colL column), .ws, .lit ("is").data, .ws,
   .lit ("null").data, .eow]

/-- Pattern `col\s+IS\s+NULL` (the append-mode guard search). -/
def colIsNullPat (column : String) : Pat :=
  [.lit (colL column), .ws, .lit ("is").data, .ws, .lit ("null").data]

/-- Pattern `(\s+WHERE\s+)`. -/
def whereWsPat : Pat := [.ws, .lit ("where").data, .ws]

/-- Pattern `(\s+LIMIT\s+)`. -/
def limitWsPat : Pat := [.ws, .lit ("limit").data, .ws]

/-- Pattern `LIMIT\s+\d+`. -/
def limitNumPat : Pat := [.lit ("limit").data, .ws, .digits]

/-- Embeds `apply_null_filters`, query_utils.py lines 44-74. -/
def apply_null_filters (query column : String) (overwrite : Bool) : String :=
  if overwrite then
    let step := fun (q : String) (p : Pat) =>
      if searchPat p q.data then (⟨subAll p (fun _ => ("WHERE 1=1").data) q.data⟩ : String)
      else q
    step (step (step query (nullPat1 column)) (nullPat2 column)) (nullPat3 column)
  else
    if !searchPat (colIsNullPat column) query.data then
      if containsCI ("WHERE") query then
        ⟨subAll whereWsPat (fun m => m ++ column.data ++ (" IS NULL AND ").data) query.data⟩
      else query ++ " WHERE " ++ column ++ " IS NULL"
    else query

/-- Embeds `add_order_and_limit`, query_utils.py lines 77-103.  Python
`if limit:` treats both `None` and `0` as no limit. -/
def add_order_and_limit (query : String) (limit : Option Nat) : String :=
  let query :=
    if !containsCI ("ORDER BY") query then
      if containsCI ("LIMIT") query then
        (⟨subAll limitWsPat (fun m => (" ORDER BY rowid").data ++ m) query.data⟩ : String)
      else query ++ " ORDER BY rowid"
    else query
  match limit with
  | some n =>
    if n ≠ 0 then
      if !containsCI ("LIMIT") query then query ++ " LIMIT " ++ toString n
      else ⟨subAll limitNumPat (fun _ => ("LIMIT " ++ toString n).data) query.data⟩
    else query
  | none => query

/-- Embeds the planner composition of
`services/enrichment_service.py::_build_query` lines 155-165 for
direct-column mode: null filters, then ORDER BY/LIMIT, then the rowid
projection pass. -/
def plan_query (query column : String) (overwrite : Bool) (limit : Option Nat) : String :=
  ensure_rowid_in_query (add_order_and_limit (apply_null_filters query column overwrite) limit)

/-! ### pydantic_schema.py / enrichment_config.py: strategy resolution -/

/-- YAML field definitions as they reach `yaml_to_pydantic_type`
(pydantic_schema.py lines 29-182): a bare type-tag string, an `enum` dict,
an `enum_list` dict, a bare list (shorthand enum), or a `type:` dict whose
optional `items` sub-dict may carry its own `lang`/`convert`. -/
inductive FieldDef where
  | strTag (tag : String)
  | enumDef (vals : List String) (lang convert : Option String)
  | enumListDef (vals : List String) (minI maxI : Option Nat) (lang convert : Option String)
  | listDef (vals : List String)
  | typeDef (tag : String) (lang convert itemsLang itemsConvert : Option String)
deriving Repr, DecidableEq

/-- The key set of `type_mapping` (pydantic_schema.py lines 106-118) plus
the deprecated `number` alias normalized at lines 121-124. -/
def typeTagOk (tag : String) : Bool :=
  ["string", "str", "float", "integer", "int", "boolean", "bool",
   "array", "list", "object", "dict", "number"].contains tag

/-- Whether `yaml_to_pydantic_type` succeeds on the definition (it raises
`SchemaConversionError` on an empty enum list or an unknown type tag). -/
def FieldDef.compileOk : FieldDef → Bool
  | .strTag tag => typeTagOk tag
  | .enumDef vals _ _ => !vals.isEmpty
  | .enumListDef vals _ _ _ _ => !vals.isEmpty
  | .listDef _ => true
  | .typeDef tag _ _ _ _ => typeTagOk tag

def FieldDef.lang? : FieldDef → Option String
  | .enumDef _ l _ => l
  | .enumListDef _ _ _ l _ => l
  | .typeDef _ l _ _ _ => l
  | _ => none

def FieldDef.convert? : FieldDef → Option String
  | .enumDef _ _ c => c
  | .enumListDef _ _ _ _ c => c
  | .typeDef _ _ c _ _ => c
  | _ => none

/-- Array-item language requirement: only a `type: array` dict with an
`items` sub-dict carrying `lang` registers one (lines 259-265). -/
def FieldDef.itemsLang? : FieldDef → Option String
  | .typeDef tag _ _ il _ => if tag == "array" then il else none
  | _ => none

def FieldDef.itemsConvert? : FieldDef → Option String
  | .typeDef tag _ _ _ ic => if tag == "array" then ic else none
  | _ => none

/-- A schema mapping field names to definitions (YAML dict ordering kept). -/
abbrev SchemaDict := List (String × FieldDef)

/-- Embeds the `EnrichmentStrategy` dataclass (enrichment_config.py lines
18-40); the language/conversion requirement tables are the ones the
generated Pydantic model carries (pydantic_schema.py lines 245-265). -/
structure EnrichmentStrategy where
  input_table : String
  input_columns : List String
  storage_mode : String
  output_table : Option String
  output_columns : List String
  key_column : String
  lang_reqs : List (String × String)
  array_lang_reqs : List (String × String)
  conv_reqs : List (String × String)
  array_conv_reqs : List (String × String)
deriving Repr

def langReqsOf (fields : SchemaDict) : List (String × String) :=
  fields.filterMap (fun p => (p.2.lang?).map (fun l => (p.1, l)))

def arrayLangReqsOf (fields : SchemaDict) : List (String × String) :=
  fields.filterMap (fun p => (p.2.itemsLang?).map (fun l => (p.1, l)))

def convReqsOf (fields : SchemaDict) : List (String × String) :=
  fields.filterMap (fun p => (p.2.convert?).map (fun l => (p.1, l)))

def arrayConvReqsOf (fields : SchemaDict) : List (String × String) :=
  fields.filterMap (fun p => (p.2.itemsConvert?).map (fun l => (p.1, l)))

/-- Enrichment configuration slice consumed by
`determine_enrichment_strategy`.  Missing YAML keys are `none`; the
falsy-chaining `cfg.get('input_table') or cfg.get('table') or default`
is rendered with `Option` (the empty-string case does not occur). -/
structure EnrichmentConfigD where
  name : String
  schema : Option SchemaDict
  input_table : Option String
  table : Option String
  input_columns : Option (List String)
  output_table : Option String
  key_column : Option String
deriving Repr

/-- Embeds `determine_enrichment_strategy`, enrichment_config.py lines
46-139.  `analyze_schema_complexity` (pydantic_schema.py lines 334-365)
is inlined: `is_complex` is `field_count > 1` and `field_names` the key
list.  An absent or empty schema dict is falsy and rejected up front. -/
def determine_enrichment_strategy (cfg : EnrichmentConfigD) (default_table : String) :
    Except String EnrichmentStrategy :=
  match cfg.schema with
  | none => .error ("Enrichment must specify a schema")
  | some [] => .error ("Enrichment must specify a schema")
  | some fields =>
    let is_complex := fields.length > 1
    let input_table := ((cfg.input_table).orElse (fun _ => cfg.table)).getD default_table
    let input_columns := cfg.input_columns.getD ["raw_content"]
    if is_complex ∧ cfg.output_table = none then
      .error ("complex schema but no output_table specified")
    else
      let storage_mode := if cfg.output_table.isSome then "separate_table" else "direct_column"
      let output_columns := fields.map (fun p => p.1)
      if fields.all (fun p => p.2.compileOk) then
        .ok { input_table := input_table
              input_columns := input_columns
              storage_mode := storage_mode
              output_table := if cfg.output_table.isSome then cfg.output_table else none
              output_columns := output_columns
              key_column := cfg.key_column.getD "sha1"
              lang_reqs := langReqsOf fields
              array_lang_reqs := arrayLangReqsOf fields
              conv_reqs := convReqsOf fields
              array_conv_reqs := arrayConvReqsOf fields }
      else .error ("Failed to create Pydantic model")

/-! ### schema_managers.py: inline managers used by the legacy path -/

def pstrip (s : String) : String :=
  ⟨((s.data.dropWhile isSpaceC).reverse.dropWhile isSpaceC).reverse⟩

def quoteChar : Char := Char.ofNat 39

/-- Embeds `.strip('"\x27')`: remove every leading and trailing double or
single quote. -/
def stripQuotes (s : String) : String :=
  let isQ := fun c => c = '"' || c = quoteChar
  ⟨((s.data.dropWhile isQ).reverse.dropWhile isQ).reverse⟩

/-- Python `int(text)`: optional surrounding whitespace, optional sign,
one or more ASCII digits (underscore grouping does not occur here). -/
def pyIntParse (s : String) : Option Int :=
  let t := (pstrip s).data
  let (neg, ds) :=
    match t with
    | '-' :: rest => (true, rest)
    | '+' :: rest => (false, rest)
    | _ => (false, t)
  if ds.isEmpty || !ds.all isDigitC then none
  else
    let n : Nat := ds.foldl (fun acc c => acc * 10 + (c.toNat - 48)) 0
    some (if neg then -(n : Int) else (n : Int))

/-- The manager variants `create_inline_schema_manager` can produce for a
dict argument.  `simpleMgr` carries the resolved Python type name
("str" / "int" / "float" / "bool", or "degenerate" when the definition
object is not a usable type) and the optional language tag. -/
inductive InlineManager where
  | enumMgr (choices : List String) (case_sensitive : Bool)
  | enumListMgr (m : EnumListSchema)
  | simpleMgr (pyType : String) (lang : Option String)
deriving Repr

/-- The `type_mapping` of `SimpleSchemaManager.__init__`
(schema_managers.py lines 291-301); unknown strings default to `str`. -/
def simpleTypeMap (s : String) : String :=
  let l := strLower s
  if l = "str" ∨ l = "string" then "str"
  else if l = "int" ∨ l = "integer" then "int"
  else if l = "float" then "float"
  else if l = "bool" ∨ l = "boolean" then "bool"
  else "str"

/-- `SimpleSchemaManager` built from a field definition object (the value
`schema_def['type']` in branch 4 of `create_inline_schema_manager`):
a dict definition takes its `type` entry (default "string") and `lang`;
a string is mapped directly; a list is not a usable type. -/
def simpleMgrOfDef (d : FieldDef) : InlineManager :=
  match d with
  | .strTag s => .simpleMgr (simpleTypeMap s) none
  | .typeDef tag l _ _ _ => .simpleMgr (simpleTypeMap tag) l
  | .enumDef _ l _ => .simpleMgr "str" l
  | .enumListDef _ _ _ l _ => .simpleMgr "str" l
  | .listDef _ => .simpleMgr "degenerate" none

/-- Embeds `create_inline_schema_manager`, schema_managers.py lines
368-413, for a dict argument — which is what the legacy fallback hands it:
the enrichment's whole schema dict, whose keys are field names.  Unless a
field happens to be literally named `enum`, `enum_list`, `boolean` or
`type`, the function falls through and raises `ValueError`.  In the
collision cases the Python objects handed to the managers are field
definitions rather than the shapes the managers expect; the embedding
keeps the branch structure and builds the manager from the definition
shape actually present. -/
def create_inline_schema_manager (schema_def : SchemaDict) : Except String InlineManager :=
  if (schema_def.lookup "enum").isSome then
    match schema_def.lookup "enum" with
    | some (.listDef vals) => .ok (.enumMgr vals true)
    | _ => .ok (.enumMgr [] true)
  else if (schema_def.lookup "enum_list").isSome then
    match schema_def.lookup "enum_list" with
    | some (.listDef vals) => .ok (.enumListMgr ⟨vals, true, 0, none, true⟩)
    | _ => .ok (.enumListMgr ⟨[], true, 0, none, true⟩)
  else if (schema_def.lookup "boolean").isSome ||
          (match schema_def.lookup "type" with
           | some (.strTag t) => t == "boolean"
           | _ => false) then
    .ok (.simpleMgr "bool" none)
  else
    match schema_def.lookup "type" with
    | some d =>
      match d with
      | .strTag t =>
        if t = "enum_list" ∧ (schema_def.lookup "choices").isSome then
          match schema_def.lookup "choices" with
          | some (.listDef vals) => .ok (.enumListMgr ⟨vals, true, 0, none, true⟩)
          | _ => .ok (.enumListMgr ⟨[], true, 0, none, true⟩)
        else .ok (simpleMgrOfDef (.strTag t))
      | _ => .ok (simpleMgrOfDef d)
    | none => .error ("Unsupported inline schema definition")

/-- Embeds `EnumSchemaManager.validate_response` (lines 101-127). -/
def enumValidate (choices : List String) (case_sensitive : Bool) (response : String) :
    Except ValidationError String :=
  let cleaned := stripQuotes (pstrip response)
  if case_sensitive then
    if choices.contains cleaned then .ok cleaned
    else .error (.schemaErr ("Response is not one of the allowed choices"))
  else
    match choices.find? (fun c => strLower c == strLower cleaned) with
    | some canon => .ok canon
    | none => .error (.schemaErr ("Response is not one of the allowed choices"))

/-- Flat JSON fragment recognizer standing in for `json.loads` inside
`EnumListSchemaManager.validate_response` (lines 172-188): a quoted
string, a flat array of quoted strings, or a bare scalar literal.  Nested
JSON does not occur in any claim. -/
inductive JsonLite where
  | jstr (s : String)
  | jarr (items : List String)
  | jscalar
deriving Repr

def parseJsonStringLit (s : List Char) : Option (String × List Char) :=
  match s with
  | '"' :: rest =>
    let body := rest.takeWhile (fun c => c ≠ '"')
    match rest.dropWhile (fun c => c ≠ '"') with
    | '"' :: tail => some (⟨body⟩, tail)
    | _ => none
  | _ => none

def parseJsonArrItems (fuel : Nat) (s : List Char) : Option (List String) :=
  match fuel with
  | 0 => none
  | fuel + 1 =>
    let s := s.dropWhile isSpaceC
    match parseJsonStringLit s with
    | none => none
    | some (item, rest) =>
      let rest := rest.dropWhile isSpaceC
      match rest with
      | ']' :: tail => if (tail.dropWhile isSpaceC).isEmpty then some [item] else none
      | ',' :: tail => (parseJsonArrItems fuel tail).map (fun l => item :: l)
      | _ => none

def jsonLiteParse (s : String) : Option JsonLite :=
  let t := (pstrip s).data
  match t with
  | '[' :: rest =>
    let rest' := rest.dropWhile isSpaceC
    if rest' = [']'] then some (.jarr [])
    else (parseJsonArrItems (rest.length + 1) rest).map .jarr
  | '"' :: _ =>
    match parseJsonStringLit t with
    | some (v, tail) => if tail.isEmpty then some (.jstr v) else none
    | none => none
  | _ =>
    let txt : String := ⟨t⟩
    if txt == "true" || txt == "false" || txt == "null" ||
       (!t.isEmpty && (t.all isDigitC ||
         (match t with | '-' :: ds => !ds.isEmpty && ds.all isDigitC | _ => false))) then
      some .jscalar
    else none

/-- Embeds the response parsing of `EnumListSchemaManager.validate_response`
(lines 169-188): JSON first, then comma-separated fallback, then a single
bare value.  A scalar JSON value raises ("Response must be a list"). -/
def parseEnumListResponse (response : String) : Except ValidationError (List String) :=
  let cleaned := pstrip response
  match jsonLiteParse cleaned with
  | some (.jarr items) => .ok items
  | some (.jstr v) => .ok [v]
  | some .jscalar => .error (.schemaErr ("Response must be a list"))
  | none =>
    if cleaned.data.contains ',' then
      .ok ((cleaned.splitOn ",").map (fun item => stripQuotes (pstrip item)))
    else .ok [stripQuotes cleaned]

/-- Embeds `SimpleSchemaManager.validate_response` (lines 305-337). -/
def simpleValidate (pyType : String) (lang : Option String) (response : String) :
    Except ValidationError PyVal :=
  let cleaned := pstrip response
  let langOk :=
    match lang with
    | some l => if pyType = "str" then validate_language cleaned l else true
    | none => true
  if !langOk then
    .error (.langErr ("Response does not match expected language"))
  else if pyType = "bool" then
    let lr := strLower cleaned
    if lr = "true" ∨ lr = "yes" ∨ lr = "1" ∨ lr = "on" then .ok (.vBool true)
    else if lr = "false" ∨ lr = "no" ∨ lr = "0" ∨ lr = "off" then .ok (.vBool false)
    else .error (.schemaErr ("Cannot convert to boolean"))
  else if pyType = "str" then .ok (.vStr cleaned)
  else if pyType = "int" then
    match pyIntParse cleaned with
    | some n => .ok (.vInt n)
    | none => .error (.schemaErr ("Cannot convert to int"))
  else if pyType = "float" then
    match pyIntParse cleaned with
    | some n => .ok (.vInt n)
    | none => .error (.schemaErr ("Cannot convert to float"))
  else .error (.schemaErr ("Cannot convert response"))

/-- Dispatches `validate_response` over the manager variants. -/
def managerValidate (m : InlineManager) (response : String) : Except ValidationError PyVal :=
  match m with
  | .enumMgr choices cs => (enumValidate choices cs response).map .vStr
  | .enumListMgr els => do
    let items ← parseEnumListResponse response
    let out ← validate_items els items
    .ok (.vList (out.map .vStr))
  | .simpleMgr t l => simpleValidate t l response

/-- Outcome of `validate_with_schema` (schema_managers.py lines 416-436)
on an inline dict schema: `createFailed` is the uncaught `ValueError`
from `create_inline_schema_manager` (it escapes before the try block). -/
inductive LegacyValidation where
  | createFailed (msg : String)
  | failed (e : ValidationError)
  | ok (v : PyVal)
deriving Repr

def validate_with_schema (schema_def : SchemaDict) (response : String) : LegacyValidation :=
  match create_inline_schema_manager schema_def with
  | .error m => .createFailed m
  | .ok mgr =>
    match managerValidate mgr response with
    | .error e => .failed e
    | .ok v => .ok v

/-! ### The per-row pipeline (llm_operations.py, db_operations.py)

Rows, database state and writes are explicit.  Provider calls are an
oracle (one outcome per attempt); every externally visible action is
recorded in an event trace so that ordering and counting claims can be
stated.  Timestamps, logging and the progress bar are not represented.
`asyncio.gather` interleaves rows; the embedding composes them in order,
which is faithful for every property stated below: per-row event order is
fixed by that row's control flow, the skip decisions are taken before any
task starts, and the counted events, audit rows and write targets are
per-row. -/

/-- A row produced by the planner query.  `rowid` and `sha1` are the
dictionary entries of the same names (`none` when the key is absent). -/
structure Row where
  rowid : Option Int
  sha1 : Option String
  cols : List (String × PyVal)
deriving Repr

/-- Dictionary lookup on a row. -/
def Row.lookupCol (r : Row) (c : String) : Option PyVal :=
  if c == "rowid" then r.rowid.map .vInt
  else if c == "sha1" then r.sha1.map .vStr
  else r.cols.lookup c

/-- Embeds `row.get('sha1', 'NO_SHA1')`. -/
def Row.sha1D (r : Row) : String := r.sha1.getD ("NO_SHA1")

/-- Embeds `row.get(key_column, 'NO_KEY')` as the SQL parameter text. -/
def Row.keyD (r : Row) (kc : String) : String :=
  match r.lookupCol kc with
  | some (.vStr s) => s
  | some v => pyStr v
  | none => "NO_KEY"

/-- Part after the first dot of a qualified column name. -/
def afterDot (cn : String) : Option String :=
  if cn.data.contains '.' then
    some ⟨((cn.data.dropWhile (fun c => c ≠ '.')).drop 1)⟩
  else none

/-- Embeds `apply_column_limits`, core_utils.py lines 300-349: resolve
each parsed column (falling back to the unqualified name), stringify with
None becoming "", then truncate to the declared character limit. -/
def apply_column_limits (row : Row) (parsed : List (String × Option Nat)) :
    List (String × String) :=
  parsed.map (fun p =>
    let (cn, lim) := p
    let value : Option PyVal :=
      match row.lookupCol cn with
      | some v => some v
      | none =>
        match afterDot cn with
        | some c2 => row.lookupCol c2
        | none => none
    match value with
    | none => (cn, "")
    | some v =>
      let sv := match v with | .vNone => "" | v' => pyStr v'
      match lim with
      | some k => if sv.length > k then (cn, ⟨sv.data.take k⟩) else (cn, sv)
      | none => (cn, sv))

/-- Case-sensitive substring test (Python `pat in s`). -/
def containsSubStr (pat s : String) : Bool := isSubstr pat.data s.data

/-- Non-overlapping left-to-right replacement (Python `str.replace` for a
non-empty pattern), fueled for structural recursion. -/
def replaceFuel (pat repl : List Char) : Nat → List Char → List Char
  | _, [] => []
  | 0, s => s
  | fuel + 1, c :: t =>
    if !pat.isEmpty && pat.isPrefixOf (c :: t) then
      repl ++ replaceFuel pat repl fuel ((c :: t).drop pat.length)
    else c :: replaceFuel pat repl fuel t

def replaceAllCS (s pat repl : String) : String :=
  ⟨replaceFuel pat.data repl.data (s.data.length + 1) s.data⟩

def braceWrap (c : String) : String := "\x7b" ++ c ++ "\x7d"

/-- Embeds the `{col}` template substitution loop of
`process_row_structured` / `process_row` (llm_operations.py lines
666-682 and 803-818): replace `{col}` and, for qualified names, the
unqualified `{column}`; `rowid`/`sha1` are excluded. -/
def templateSub (prompt : String) (parsed : List (String × Option Nat))
    (limited : List (String × String)) : String :=
  parsed.foldl (fun tp p =>
    let cn := p.1
    if cn == "rowid" || cn == "sha1" then tp
    else
      let v := (limited.lookup cn).getD ""
      let tp := if containsSubStr (braceWrap cn) tp then replaceAllCS tp (braceWrap cn) v else tp
      match afterDot cn with
      | some c2 =>
        if containsSubStr (braceWrap c2) tp then replaceAllCS tp (braceWrap c2) v else tp
      | none => tp) prompt

/-- Embeds the `input_text` join (lines 687-691 / 823-827). -/
def inputTextOf (parsed : List (String × Option Nat))
    (limited : List (String × String)) : String :=
  String.intercalate "\n"
    ((parsed.filter (fun p => p.1 ≠ "rowid" ∧ p.1 ≠ "sha1")).map
      (fun p => p.1 ++ ": " ++ ((limited.lookup p.1).getD "")))

/-- One row of the `enrichment_responses` audit table (db_operations.py
lines 594-615; `id` autoincrement and `created_at` not represented). -/
structure AuditRecord where
  enrichment_id : Option String
  sha1 : String
  enrichment_name : String
  raw_json : String
  model_used : String
  prompt_id : Option String
  full_prompt : Option String
deriving Repr

structure DRow where
  key : String
  model_used : Option String
  enrichment_id : Option String
  data : List (String × PyVal)
deriving Repr

structure DTable where
  has_model_column : Bool
  rows : List DRow
deriving Repr

structure DbState where
  audit : List AuditRecord
  tables : List (String × DTable)
deriving Repr

/-- Embeds the skip query `SELECT 1 FROM enrichment_responses WHERE sha1 =
? AND enrichment_name = ? AND model_used = ?` (lines 268-271). -/
def DbState.auditHas (st : DbState) (sha1 ename model : String) : Bool :=
  st.audit.any (fun a => a.sha1 == sha1 && a.enrichment_name == ename && a.model_used == model)

/-- Externally visible pipeline actions, in program order. -/
inductive Event where
  | call (sha1 : String) (attempt : Nat) (full_prompt : String)
  | legacyCall (sha1 : String)
  | auditAppend (eid : Option String) (sha1 ename model : String)
  | derivedWrite (table key : String) (model : Option String) (eid : Option String)
      (data : List (String × PyVal)) (isInsert : Bool)
  | directWrite (table column : String) (rowid : Option Int) (sha1 : String) (value : PyVal)
      (eid : Option String)
deriving Repr

def Event.isCall : Event → Bool
  | .call _ _ _ => true
  | _ => false

def Event.isLegacyCall : Event → Bool
  | .legacyCall _ => true
  | _ => false

def Event.isAudit : Event → Bool
  | .auditAppend _ _ _ _ => true
  | _ => false

def Event.isWrite : Event → Bool
  | .derivedWrite _ _ _ _ _ _ => true
  | .directWrite _ _ _ _ _ _ => true
  | _ => false

def Event.isDerivedWrite : Event → Bool
  | .derivedWrite _ _ _ _ _ _ => true
  | _ => false

/-- The sha1 (or derived-table key) an event touches. -/
def Event.sha1Of : Event → String
  | .call s _ _ => s
  | .legacyCall s => s
  | .auditAppend _ s _ _ => s
  | .derivedWrite _ k _ _ _ _ => k
  | .directWrite _ _ _ s _ _ => s

/-- The enrichment_id an event carries, when it carries one. -/
def Event.eidOf : Event → Option String
  | .auditAppend e _ _ _ => e
  | .derivedWrite _ _ _ e _ _ => e
  | .directWrite _ _ _ _ _ e => e
  | _ => none

/-- Embeds `store_raw_enrichment_response` (db_operations.py lines
594-615): an unconditional append to the audit table. -/
def store_raw_enrichment_response (st : DbState) (sha1 ename raw_json model : String)
    (eid pid fp : Option String) : DbState × Event :=
  (⟨st.audit ++ [⟨eid, sha1, ename, raw_json, model, pid, fp⟩], st.tables⟩,
   .auditAppend eid sha1 ename model)

/-- Embeds the null-likeness filter of `update_output_table`
(db_operations.py lines 704-719): None, "", "null" in any case, and empty
lists/dicts are not meaningful. -/
def meaningfulVal : PyVal → Bool
  | .vNone => false
  | .vStr s => !(s == "" || strLower s == "null")
  | .vList l => !l.isEmpty
  | .vDict l => !l.isEmpty
  | _ => true

/-- Embeds the serialization step (lines 729-737): lists and dicts are
JSON-encoded; enums are already plain strings in the embedding. -/
def serializeVal : PyVal → PyVal
  | .vList l => .vStr (jsonOfPyVal (.vList l))
  | .vDict l => .vStr (jsonOfPyVal (.vDict l))
  | v => v

def setAssoc (d : List (String × PyVal)) (k : String) (v : PyVal) : List (String × PyVal) :=
  if (d.lookup k).isSome then d.map (fun p => if p.1 == k then (k, v) else p)
  else d ++ [(k, v)]

def mergeData (old new : List (String × PyVal)) : List (String × PyVal) :=
  new.foldl (fun d p => setAssoc d p.1 p.2) old

/-- Embeds `update_output_table`, db_operations.py lines 657-803: check
for an existing `(key, model)` row, drop null-like values, and update or
insert only when meaningful data remains.  A missing table raises
(`sqlite3.Error` from the PRAGMA/ALTER path), rendered as `.error`. -/
def update_output_table (st : DbState) (tname key_column key_value : String)
    (output_data : List (String × PyVal)) (eid : Option String) (model : Option String) :
    Except Unit (DbState × List Event) :=
  match st.tables.lookup tname with
  | none => .error ()
  | some td =>
    let keyed := td.has_model_column && model.isSome
    let hits := fun (r : DRow) =>
      if keyed then r.key == key_value && r.model_used == model
      else r.key == key_value
    let exists_ := td.rows.any hits
    let cleaned := output_data.filter (fun p => meaningfulVal p.2)
    if cleaned.isEmpty then .ok (st, [])
    else
      let serialized := cleaned.map (fun p => (p.1, serializeVal p.2))
      let newRows :=
        if exists_ then
          td.rows.map (fun r =>
            if hits r then
              ⟨r.key, r.model_used, (if eid.isSome then eid else r.enrichment_id),
               mergeData r.data serialized⟩
            else r)
        else td.rows ++ [⟨key_value, (if keyed then model else none), eid, serialized⟩]
      .ok (⟨st.audit,
            st.tables.map (fun p => if p.1 == tname then (p.1, ⟨td.has_model_column, newRows⟩) else p)⟩,
           [.derivedWrite tname key_value (if keyed then model else none) eid serialized (!exists_)])

/-- One update row handed to `update_database`: the rowid/sha1 keys, the
new value, and the `enrichment_id` entry when the caller passes a full
result dictionary (the legacy path does; the structured direct-column
path builds a fresh dictionary without one). -/
structure DirectUpdate where
  rowid : Option Int
  sha1 : String
  updated : PyVal
  eid : Option String
deriving Repr

/-- Embeds `update_database` (db_operations.py lines 325-370): an
unconditional per-row `UPDATE ... SET col = ?`.  The source table contents
are not represented; the event records the write. -/
def update_database (st : DbState) (table output_col : String) (results : List DirectUpdate) :
    DbState × List Event :=
  (st, results.map (fun r => .directWrite table output_col r.rowid r.sha1 r.updated r.eid))

/-- Per-row result dictionary (the shape returned by
`process_row_structured` / `process_row` / `process_translation`). -/
structure RowResult where
  enrichment_id : String
  rowid : Option Int
  sha1 : String
  updated : Option PyVal
  raw_json : Option String
  error : Option String
  full_prompt : Option String
deriving Repr

/-- Embeds the truthiness test `result.get('updated')`. -/
def RowResult.updatedTruthy (r : RowResult) : Bool :=
  match r.updated with
  | some v => v.truthy
  | none => false

/-- Embeds `result.get(key_column, result.get('sha1', 'NO_KEY'))` over the
result dictionary keys. -/
def keyOfResult (r : RowResult) (kc : String) : String :=
  if kc == "sha1" then r.sha1
  else if kc == "enrichment_id" then r.enrichment_id
  else if kc == "rowid" then (match r.rowid with | some i => toString i | none => "NO_ROWID")
  else r.sha1

def isNoneV : PyVal → Bool
  | .vNone => true
  | _ => false

/-- Embeds `apply_conversions` (pydantic_schema.py lines 268-288):
converters are an environment (`CONVERTERS` is plugin-supplied); missing
converters and None values are skipped. -/
def applyConversions (conv : String → Option (String → String))
    (strat : EnrichmentStrategy) (fields : List (String × PyVal)) : List (String × PyVal) :=
  let afterDirect := strat.conv_reqs.foldl (fun fs p =>
    let (fname, ctype) := p
    match fs.lookup fname with
    | some v =>
      if isNoneV v then fs
      else match conv ctype with
        | some f => setAssoc fs fname (.vStr (f (pyStr v)))
        | none => fs
    | none => fs) fields
  strat.array_conv_reqs.foldl (fun fs p =>
    let (fname, ctype) := p
    match fs.lookup fname with
    | some (.vList l) =>
      (match conv ctype with
       | some f => setAssoc fs fname (.vList (l.map (fun item => .vStr (f (pyStr item)))))
       | none => fs)
    | _ => fs) afterDirect

/-- Embeds `validate_languages` (pydantic_schema.py lines 290-310):
the first direct-field violation, then the first array-item violation,
raises `LanguageValidationError`; absent and None values pass. -/
def validateLanguages (strat : EnrichmentStrategy) (fields : List (String × PyVal)) :
    Option String :=
  let direct := strat.lang_reqs.findSome? (fun p =>
    let (fname, lang) := p
    match fields.lookup fname with
    | some v =>
      if !isNoneV v && !validate_language (pyStr v) lang then
        some ("Field " ++ fname ++ " must be in " ++ lang)
      else none
    | none => none)
  match direct with
  | some m => some m
  | none =>
    strat.array_lang_reqs.findSome? (fun p =>
      let (fname, lang) := p
      match fields.lookup fname with
      | some (.vList l) =>
        l.findSome? (fun item =>
          if !isNoneV item && !validate_language (pyStr item) lang then
            some ("Array field " ++ fname ++ " item must be in " ++ lang)
          else none)
      | _ => none)

/-- Outcome of one `call_llm_structured` attempt: the parsed, schema-valid
field dictionary, or a raised exception (provider or parse failure). -/
inductive CallOutcome where
  | ok (fields : List (String × PyVal))
  | exn (msg : String)

/-- Embeds the retry loop of `process_row_structured` (llm_operations.py
lines 716-773).  `fuel` is `max_retries - attempt`, starting at 2: only
`LanguageValidationError` consumes fuel; any other exception stops at
once, and success returns the converted, validated dictionary. -/
def structuredAttemptLoop (strat : EnrichmentStrategy)
    (conv : String → Option (String → String)) (oracle : Nat → CallOutcome)
    (sha1 full_prompt eid : String) (rowid : Option Int) :
    Nat → Nat → RowResult × List Event
  | attempt, fuel =>
    let ev := Event.call sha1 attempt full_prompt
    match oracle attempt with
    | .exn m =>
      (⟨eid, rowid, sha1, none, some (jsonOfPyVal (.vDict [("error", .vStr m)])),
        some m, some full_prompt⟩, [ev])
    | .ok fields =>
      let fields := applyConversions conv strat fields
      match validateLanguages strat fields with
      | none =>
        (⟨eid, rowid, sha1, some (.vDict fields), some (jsonOfPyVal (.vDict fields)),
          none, some full_prompt⟩, [ev])
      | some m =>
        match fuel with
        | f + 1 =>
          let (r, evs) :=
            structuredAttemptLoop strat conv oracle sha1 full_prompt eid rowid (attempt + 1) f
          (r, ev :: evs)
        | 0 =>
          let msg := "Language validation failed after 3 attempts: " ++ m
          (⟨eid, rowid, sha1, none, some (jsonOfPyVal (.vDict [("error", .vStr msg)])),
            some msg, some full_prompt⟩, [ev])

/-- Configuration slice reaching `process_batch` (llm_operations.py
lines 243-244 and `process_enrichment` lines 919-1022). -/
structure PipeCfg where
  ename : String
  prompt : String
  model : String
  truncate : Bool
  table : String
  output_table : Option String
  output_cols : List (Option String)
  key_column : String
  prompt_id : String
  parsed_input_cols : List (String × Option Nat)
  schema : Option SchemaDict
  config_present : Bool
deriving Repr

/-- Embeds `process_row_structured` (llm_operations.py lines 653-788)
up to and including the retry loop. -/
def process_row_structured (strat : EnrichmentStrategy)
    (conv : String → Option (String → String)) (cfg : PipeCfg) (row : Row)
    (eid : String) (oracle : Nat → CallOutcome) : RowResult × List Event :=
  let limited := apply_column_limits row cfg.parsed_input_cols
  let templated := templateSub cfg.prompt cfg.parsed_input_cols limited
  let input_text := inputTextOf cfg.parsed_input_cols limited
  let (full_prompt, _) := structured_full_prompt templated input_text cfg.model cfg.truncate
  structuredAttemptLoop strat conv oracle row.sha1D full_prompt eid row.rowid 0 2

/-- Outcome of one legacy `call_llm` text call. -/
inductive LegacyOutcome where
  | ok (text : String)
  | exn (msg : String)

/-- Instruction text appended by `get_schema_prompt_instructions`
(schema_managers.py lines 439-455): empty when the inline manager cannot
be created; otherwise a manager-specific block whose wording no claim
inspects, abbreviated here. -/
def legacy_instructions (schema : Option SchemaDict) (config_present : Bool) : String :=
  match schema, config_present with
  | some sd, true =>
    match create_inline_schema_manager sd with
    | .ok _ => "[schema instructions]"
    | .error _ => ""
  | _, _ => ""

/-- The string coercion `str(validated_result)` (llm_operations.py lines
870-872). -/
def legacyStr : PyVal → String
  | .vStr s => s
  | v => pyStr v

/-- Embeds the legacy `process_row` (llm_operations.py lines 790-912):
text call, then `validate_with_schema`; a `SchemaValidationError`
(including language errors — the legacy path never retries) or the
uncaught `ValueError` from manager creation both yield an error result. -/
def process_row_legacy (cfg : PipeCfg) (row : Row) (eid : String)
    (outcome : LegacyOutcome) : RowResult × List Event :=
  let limited := apply_column_limits row cfg.parsed_input_cols
  let templated := templateSub cfg.prompt cfg.parsed_input_cols limited
  let input_text := inputTextOf cfg.parsed_input_cols limited
  let instr := legacy_instructions cfg.schema cfg.config_present
  let full0 := if instr == "" then templated else templated ++ "\n\n" ++ instr
  let final_input :=
    if cfg.truncate then (truncate_input_for_model full0 input_text cfg.model 2000).1
    else input_text
  let full_prompt := full0 ++ "\n\n" ++ final_input
  let ev := Event.legacyCall row.sha1D
  match outcome with
  | .exn m => (⟨eid, row.rowid, row.sha1D, none, none, some m, some full_prompt⟩, [ev])
  | .ok text =>
    match cfg.schema, cfg.config_present with
    | some sd, true =>
      match validate_with_schema sd text with
      | .ok v => (⟨eid, row.rowid, row.sha1D, some (.vStr (legacyStr v)), none, none,
                   some full_prompt⟩, [ev])
      | .failed _ => (⟨eid, row.rowid, row.sha1D, none, none,
                      some "Schema validation failed", some full_prompt⟩, [ev])
      | .createFailed m => (⟨eid, row.rowid, row.sha1D, none, none, some m,
                            some full_prompt⟩, [ev])
    | _, _ => (⟨eid, row.rowid, row.sha1D, some (.vStr text), none, none,
               some full_prompt⟩, [ev])

/-- Embeds `TRANSLATION_ENRICHMENTS` (constants.py lines 61-64). -/
def TRANSLATION_ENRICHMENTS : List String :=
  ["translate_to_english", "translate_to_english_by_line"]

/-- Outcome of the chunked translation fan-out of `process_translation`
(llm_operations.py lines 1056-1117).  The per-chunk OpenAI calls are
provider I/O and are abstracted to one oracle answer: the merged
line-number-to-translation dictionary, or the exception of the outer
try block. -/
inductive TransOutcome where
  | ok (translations : List (String × String))
  | exn (msg : String)

/-- Embeds `process_translation` (llm_operations.py lines 1024-1141)
around the abstracted chunk fan-out: concatenate the input columns, build
the numbered `zh_json`, and assemble the three output fields. -/
def process_translation (cfg : PipeCfg) (row : Row) (eid : String)
    (outcome : TransOutcome) : RowResult × List Event :=
  let sha1 := row.sha1D
  let ev := Event.legacyCall sha1
  let content := pstrip (String.join
    ((cfg.parsed_input_cols.map (fun p => p.1)).filterMap (fun c =>
      (row.lookupCol c).map (fun v => pstrip (pyStr v) ++ "\n"))))
  if content = "" then
    (⟨eid, row.rowid, sha1,
      some (.vDict [("zh_json", .vStr "\x7b\x7d"), ("en_json", .vStr "\x7b\x7d"),
                    ("english_translation", .vStr "")]), none, none, none⟩, [])
  else
    match outcome with
    | .exn m => (⟨eid, row.rowid, sha1, none, none, some m, none⟩, [ev])
    | .ok translations =>
      let lines := content.splitOn "\n"
      let zh := (lines.enum.filterMap (fun p =>
        if pstrip p.2 = "" then none else some (toString p.1, PyVal.vStr (pstrip p.2))))
      (⟨eid, row.rowid, sha1,
        some (.vDict
          [("zh_json", .vStr (jsonOfPyVal (.vDict zh))),
           ("en_json", .vStr (jsonOfPyVal (.vDict (translations.map (fun p => (p.1, PyVal.vStr p.2)))))),
           ("english_translation", .vStr (String.intercalate "\n" (translations.map (fun p => p.2))))]),
        none, none, none⟩, [ev])

/-- Oracles and identifiers for one row task: the structured per-attempt
outcomes, the legacy text call, the translation fan-out, and the two
`uuid.uuid4()` values minted by `process_row_structured` and by the
fallback `process_row`/`process_translation`. -/
structure RowOracles where
  structured : Nat → CallOutcome
  legacy : LegacyOutcome
  trans : TransOutcome
  eidS : String
  eidL : String

/-- Embeds the audit + conditional write block shared by the two generic
legacy branches of `process_and_save` (llm_operations.py lines 537-579 and
597-638).  The returned flag records an uncaught database exception
(missing output table) that would abort the task. -/
def legacy_store (cfg : PipeCfg) (r : RowResult) (st : DbState) :
    DbState × List Event × Bool :=
  let raw :=
    if r.updatedTruthy then jsonOfPyVal (.vDict [("result", r.updated.getD .vNone)])
    else jsonOfPyVal (.vDict [("error", .vStr (r.error.getD "Unknown error"))])
  let (st1, aev) := store_raw_enrichment_response st r.sha1 cfg.ename raw cfg.model
    (some r.enrichment_id) (some cfg.prompt_id) r.full_prompt
  if r.updatedTruthy then
    let colName := (cfg.output_cols.headD none).getD "None"
    match cfg.output_table with
    | some ot =>
      let key_value := keyOfResult r cfg.key_column
      match update_output_table st1 ot cfg.key_column key_value
          [(colName, r.updated.getD .vNone)] (some r.enrichment_id) (some cfg.model) with
      | .ok (st2, wevs) => (st2, aev :: wevs, false)
      | .error _ => (st1, [aev], true)
    | none =>
      let (st2, wevs) := update_database st1 cfg.table colName
        [⟨r.rowid, r.sha1, r.updated.getD .vNone, some r.enrichment_id⟩]
      (st2, aev :: wevs, false)
  else (st1, [aev], false)

/-- Embeds the audit + multi-column write block of the by-line translation
branch (llm_operations.py lines 483-514).  The hardcoded update rows carry
no `sha1` key, hence the `NO_KEY` placeholder. -/
def translation_store (cfg : PipeCfg) (r : RowResult) (st : DbState) :
    DbState × List Event :=
  let raw :=
    if r.updatedTruthy then jsonOfPyVal (r.updated.getD (.vDict []))
    else jsonOfPyVal (.vDict [("error", .vStr (r.error.getD "Unknown error"))])
  let (st1, aev) := store_raw_enrichment_response st r.sha1 cfg.ename raw cfg.model
    (some r.enrichment_id) (some cfg.prompt_id) r.full_prompt
  if r.updatedTruthy then
    let d := match r.updated with | some (.vDict d) => d | _ => []
    let writeOne := fun (stc : DbState) (col : String) =>
      update_database stc cfg.table col [⟨r.rowid, "NO_KEY", (d.lookup col).getD (.vStr ""), none⟩]
    let (st2, e1) := writeOne st1 "zh_json"
    let (st3, e2) := writeOne st2 "en_json"
    let (st4, e3) := writeOne st3 "english_translation"
    (st4, aev :: (e1 ++ e2 ++ e3))
  else (st1, [aev])

/-- Embeds the legacy fallback body of `process_and_save`
(llm_operations.py lines 468-639): dispatch on the enrichment name, then
audit and conditional writes. -/
def legacy_fallback (cfg : PipeCfg) (row : Row) (orc : RowOracles) (st : DbState) :
    Option RowResult × DbState × List Event × Bool :=
  if TRANSLATION_ENRICHMENTS.contains cfg.ename ∧ cfg.ename = "translate_to_english_by_line" then
    let (r, evs) := process_translation cfg row orc.eidL orc.trans
    let (st1, sevs) := translation_store cfg r st
    (none, st1, evs ++ sevs, false)
  else
    let (r, evs) := process_row_legacy cfg row orc.eidL orc.legacy
    let (st1, sevs, crashed) := legacy_store cfg r st
    (some r, st1, evs ++ sevs, crashed)

/-- Embeds the `raw_json` recovery of `process_and_save` (lines 404-411):
when the result carries no (or an empty) `raw_json`, rebuild it from the
updated data or the error. -/
def rawJsonOf (r : RowResult) : String :=
  match r.raw_json with
  | some j => if j == "" then rawJsonFallback r else j
  | none => rawJsonFallback r
where rawJsonFallback (r : RowResult) : String :=
  if r.updatedTruthy then jsonOfPyVal (r.updated.getD .vNone)
  else jsonOfPyVal (.vDict [("error", .vStr (r.error.getD "Unknown error"))])

/-- Embeds `process_and_save` (llm_operations.py lines 382-639) for a
schema-driven strategy (`enrichment_strategy.pydantic_model` present, as
`determine_enrichment_strategy` always builds one): the structured row
processing, the audit append, the storage dispatch, and — when the
storage step raises (the unguarded `result['updated'].get(column_name)`
on a None result, or a database error) — the swallowed exception at line
463-466 followed by the legacy fallback.  Returns the per-row result (the
by-line translation branch returns None), the new state, the trace, a
fallback flag and a crash flag. -/
def process_and_save (strat : EnrichmentStrategy)
    (conv : String → Option (String → String)) (cfg : PipeCfg) (row : Row)
    (orc : RowOracles) (st : DbState) :
    Option RowResult × DbState × List Event × Bool × Bool :=
  let (r, evs) := process_row_structured strat conv cfg row orc.eidS orc.structured
  let raw := rawJsonOf r
  let (st1, aev) := store_raw_enrichment_response st r.sha1 cfg.ename raw cfg.model
    (some orc.eidS) (some cfg.prompt_id) r.full_prompt
  let pre := evs ++ [aev]
  let fallback := fun (stf : DbState) (evs0 : List Event) =>
    let (r2, st2, evs2, crashed) := legacy_fallback cfg row orc stf
    (r2, st2, evs0 ++ evs2, true, crashed)
  if r.updatedTruthy ∧ strat.storage_mode = "separate_table" then
    let key_value := keyOfResult r strat.key_column
    match update_output_table st1 (strat.output_table.getD "") strat.key_column key_value
        (match r.updated with | some (.vDict d) => d | _ => []) (some orc.eidS) (some cfg.model) with
    | .ok (st2, wevs) => (some r, st2, pre ++ wevs, false, false)
    | .error _ => fallback st1 pre
  else
    match strat.output_columns with
    | [cn] =>
      match r.updated with
      | some (.vDict d) =>
        let cv := (d.lookup cn).getD .vNone
        let (st2, wevs) := update_database st1 cfg.table cn [⟨r.rowid, r.sha1, cv, none⟩]
        (some r, st2, pre ++ wevs, false, false)
      | _ => fallback st1 pre
    | _ => (some r, st1, pre, false, false)

/-- Skip list entry (the dictionaries built at llm_operations.py lines
273-278, 307-312 and 316-320; `updated` is always None). -/
structure SkipEntry where
  rowid : Option Int
  sha1 : String
  original : PyVal
deriving Repr

/-- Embeds the authoritative audit check of `process_batch` (lines
263-278): a row with a real sha1 and any `(sha1, enrichment_name,
model_used)` audit record is skipped. -/
def auditSkip (st : DbState) (results : List Row) (ename model : String) : List SkipEntry :=
  results.filterMap (fun row =>
    let sha1 := row.sha1D
    if sha1 ≠ "NO_SHA1" ∧ st.auditHas sha1 ename model then
      some ⟨row.rowid, sha1, .vStr "already processed (enrichment_responses)"⟩
    else none)

/-- Embeds the output-table backward-compatibility check (lines 282-312):
when the output table exists, a remaining row whose key (and model, when
the table has a `model_used` column) already appears there is skipped. -/
def tableSkip (st : DbState) (results : List Row) (skipped1 : List SkipEntry)
    (output_table key_column model : String) : List SkipEntry :=
  match st.tables.lookup output_table with
  | none => []
  | some td =>
    let skippedSha1s := skipped1.map (fun e => e.sha1)
    results.filterMap (fun row =>
      let sha1 := row.sha1D
      if skippedSha1s.contains sha1 then none
      else
        let key_value := row.keyD key_column
        let hit :=
          if td.has_model_column then
            td.rows.any (fun r => r.key == key_value && r.model_used == some model)
          else td.rows.any (fun r => r.key == key_value)
        if hit then
          some ⟨row.rowid, sha1, .vStr ("exists in " ++ output_table)⟩
        else none)

/-- Embeds the direct-column check (lines 313-321): a remaining row whose
output column already holds a truthy value is skipped. -/
def directSkip (results : List Row) (skipped1 : List SkipEntry)
    (outCol : Option String) : List SkipEntry :=
  let skippedSha1s := skipped1.map (fun e => e.sha1)
  results.filterMap (fun row =>
    let v := match outCol with
      | some c => row.lookupCol c
      | none => none
    match v with
    | some pv =>
      if pv.truthy ∧ ¬skippedSha1s.contains row.sha1D then
        some ⟨row.rowid, row.sha1D, pv⟩
      else none
    | none => none)

/-- The skip phase of `process_batch` (lines 254-321) under
`overwrite=false`; with `overwrite=true` nothing is skipped. -/
def batchSkips (st : DbState) (cfg : PipeCfg) (results : List Row)
    (overwrite : Bool) : List SkipEntry :=
  if overwrite then []
  else
    let s1 := auditSkip st results cfg.ename cfg.model
    let s2 := match cfg.output_table with
      | some ot => tableSkip st results s1 ot cfg.key_column cfg.model
      | none => directSkip results s1 (cfg.output_cols.headD none)
    s1 ++ s2

/-- Embeds the rows-to-process filter (lines 353-355). -/
def rowsToProcess (results : List Row) (skipped : List SkipEntry) : List Row :=
  let skippedIds := skipped.map (fun e => (e.rowid, e.sha1))
  results.filter (fun row => !skippedIds.contains (row.rowid, row.sha1D))

/-- Sequential composition of the per-row tasks (`asyncio.gather` at line
642, collapsed to program order; see the section comment). -/
def runRows (strat : EnrichmentStrategy) (conv : String → Option (String → String))
    (cfg : PipeCfg) (orcs : Nat → RowOracles) :
    List Row → Nat → DbState → List (Option RowResult) × DbState × List Event
  | [], _, st => ([], st, [])
  | row :: rest, i, st =>
    let (r, st1, evs, _, _) := process_and_save strat conv cfg row (orcs i) st
    let (rs, st2, evs2) := runRows strat conv cfg orcs rest (i + 1) st1
    (r :: rs, st2, evs ++ evs2)

/-- Embeds `process_batch` (llm_operations.py lines 243-651): the skip
phase, the per-row fan-out over the remaining rows, and the combined
outcome. -/
def process_batch (strat : EnrichmentStrategy)
    (conv : String → Option (String → String)) (cfg : PipeCfg)
    (results : List Row) (overwrite : Bool) (orcs : Nat → RowOracles)
    (st : DbState) : List SkipEntry × List (Option RowResult) × DbState × List Event :=
  let skipped := batchSkips st cfg results overwrite
  let rows := rowsToProcess results skipped
  let (resL, stF, trace) := runRows strat conv cfg orcs rows 0 st
  (skipped, resL, stF, trace)

/-- Number of audit rows for a `(sha1, enrichment_name, model_used)`
triple. -/
def auditCountFor (st : DbState) (sha1 ename model : String) : Nat :=
  (st.audit.filter (fun a =>
    a.sha1 == sha1 && a.enrichment_name == ename && a.model_used == model)).length

/-! ### Result-set semantics for the planned statements (claim C7)

SQLite itself is outside this repository.  Modelled from the spec: the
planned statement with the `col IS NULL` conjunct selects, from the rows
the base statement selects, exactly those whose value in `col` is NULL;
without the conjunct it selects them all. -/

abbrev SqlRow := List (String × Option PyVal)

def rowColIsNull (col : String) (r : SqlRow) : Bool :=
  match r.lookup col with
  | some (some _) => false
  | _ => true

/-- Modelled from the spec: the result set of a planned statement over the
base statement's rows, with or without the injected NULL filter. -/
def plannedResultSet (base : List SqlRow) (nullFilterCol : Option String) : List SqlRow :=
  match nullFilterCol with
  | some c => base.filter (rowColIsNull c)
  | none => base

/-! ### Concrete scenario constants for witnesses and counterexamples -/

/-- A direct-column strategy over a single `lang: zh` string field. -/
def stratZh : EnrichmentStrategy :=
  ⟨"documents", ["raw_content"], "direct_column", none, ["summary_zh"], "sha1",
   [("summary_zh", "zh")], [], [], []⟩

def cfgZh : PipeCfg :=
  ⟨"summarize_zh", "Summarize: \x7braw_content\x7d", "gpt-4o-mini", false, "documents",
   none, [some "summary_zh"], "sha1", "pid-1", [("raw_content", none)],
   some [("summary_zh", FieldDef.typeDef "string" (some "zh") none none none)], true⟩

def rowA : Row := ⟨some 1, some "a1b2c3", [("raw_content", .vStr "hello")]⟩

/-- Oracle whose three structured attempts all return English text for the
`lang: zh` field, and whose legacy call also returns English. -/
def orcAllEnglish : RowOracles :=
  ⟨fun _ => .ok [("summary_zh", .vStr "plain english")], .ok "english again",
   .ok [], "EID-S", "EID-L"⟩

/-- Oracle failing language validation on attempts 0 and 1 and passing on
attempt 2. -/
def orcThirdTimeChinese : RowOracles :=
  ⟨fun a => if a < 2 then .ok [("summary_zh", .vStr "english")]
            else .ok [("summary_zh", .vStr (String.mk [Char.ofNat 0x4F60, Char.ofNat 0x597D]))],
   .ok "x", .ok [], "EID-S", "EID-L"⟩

/-- A separate-table strategy over a single enum_list field. -/
def stratTopics : EnrichmentStrategy :=
  ⟨"documents", ["raw_content"], "separate_table", some "analysis", ["topics"], "sha1",
   [], [], [], []⟩

def cfgTopics : PipeCfg :=
  ⟨"tag_topics", "Tag: \x7braw_content\x7d", "gpt-4o-mini", false, "documents",
   some "analysis", [some "topics"], "sha1", "pid-2", [("raw_content", none)],
   some [("topics", FieldDef.enumListDef ["a", "b", "c", "d"] (some 1) (some 3) none none)], true⟩

/-- Oracle returning the duplicate-carrying enum_list value that the
generated validator accepts. -/
def orcDupTopics : RowOracles :=
  ⟨fun _ => .ok [("topics", .vList [.vStr "a", .vStr "b", .vStr "a"])],
   .ok "x", .ok [], "EID-S", "EID-L"⟩

/-- Oracle for a direct-column result whose single value is the empty
string. -/
def orcEmptyString : RowOracles :=
  ⟨fun _ => .ok [("summary_zh", .vStr "")], .ok "x", .ok [], "EID-S", "EID-L"⟩

/-- The enum_list manager configuration of scenario C3 (choices a-d,
min_items 1, max_items 3, dedup on). -/
def topicsEnumList : EnumListSchema := ⟨["a", "b", "c", "d"], true, 1, some 3, true⟩

/-- An empty database state. -/
def dbEmpty : DbState := ⟨[], []⟩

/-- A database state holding one audit record for
`("a1b2c3", "summarize_zh", "gpt-4o-mini")` and an empty `analysis`
derived table. -/
def dbWithAudit : DbState :=
  ⟨[⟨some "E0", "a1b2c3", "summarize_zh", "\x7b\x7d", "gpt-4o-mini", none, none⟩],
   [("analysis", ⟨true, []⟩)]⟩

/-- A database state with an `analysis` derived table holding a row for
`("a1b2c3", "gpt-4o-mini")` and no audit records. -/
def dbWithDerivedRow : DbState :=
  ⟨[], [("analysis", ⟨true, [⟨"a1b2c3", some "gpt-4o-mini", some "E9", [("topics", .vStr "x")]⟩]⟩)]⟩

/-- A 25000-character prompt (the oversized-prompt truncation scenario). -/
def bigPrompt : String := ⟨List.replicate 25000 'a'⟩

/-- A single-field enum config with no output_table. -/
def cfgC8 : EnrichmentConfigD :=
  ⟨"sentiment", some [("sentiment", FieldDef.enumDef ["positive", "negative"] none none)],
   none, none, none, none, none⟩

/-- The strategy `determine_enrichment_strategy` resolves `cfgC8` to. -/
def sC8 : EnrichmentStrategy :=
  ⟨"documents", ["raw_content"], "direct_column", none, ["sentiment"], "sha1", [], [], [], []⟩

/-! ## Theorems -/

/-! ### Substring machinery -/

theorem isSubstr_infix_iff {p s : List Char} : isSubstr p s = true ↔ p <:+: s := by
  induction s with
  | nil =>
    simp only [isSubstr, List.isEmpty_iff]
    constructor
    · intro h; simp [h]
    · intro h
      have := h.length_le
      simp only [List.length_nil, Nat.le_zero, List.length_eq_zero] at this
      exact this
  | cons c t ih =>
    simp only [isSubstr, Bool.or_eq_true, List.isPrefixOf_iff_prefix, ih,
      List.infix_cons_iff]

theorem mem_of_isSubstr {p s : List Char} (h : isSubstr p s = true) {c : Char}
    (hc : c ∈ p) : c ∈ s :=
  (isSubstr_infix_iff.mp h).sublist.subset hc

theorem prefix_append_cases {α : Type} {p x y : List α} (h : p <+: x ++ y) :
    p <+: x ∨ (x <+: p ∧ p.drop x.length <+: y) := by
  by_cases hl : p.length ≤ x.length
  · exact Or.inl (List.prefix_of_prefix_length_le h (List.prefix_append x y) hl)
  · right
    have hx : x <+: p :=
      List.prefix_of_prefix_length_le (List.prefix_append x y) h (le_of_not_le hl)
    refine ⟨hx, ?_⟩
    obtain ⟨r, hr⟩ := h
    obtain ⟨q, hq⟩ := hx
    subst hq
    rw [List.drop_left]
    rw [List.append_assoc] at hr
    exact ⟨r, List.append_cancel_left hr⟩

theorem infix_append_cases {α : Type} {p a b : List α} (h : p <:+: a ++ b) :
    p <:+: a ∨ p <:+: b ∨
      ∃ k, 0 < k ∧ k < p.length ∧ p.take k <:+ a ∧ p.drop k <+: b := by
  induction a with
  | nil => exact Or.inr (Or.inl (by simpa using h))
  | cons c t ih =>
    rw [List.cons_append, List.infix_cons_iff] at h
    rcases h with hpre | hinf
    · have hpre' : p <+: (c :: t) ++ b := by simpa using hpre
      rcases prefix_append_cases hpre' with h1 | ⟨h2, h3⟩
      · exact Or.inl h1.isInfix
      · by_cases hlen : p.length ≤ (c :: t).length
        · have : c :: t = p := h2.eq_of_length_le hlen
          exact Or.inl (this ▸ List.infix_refl p)
        · push_neg at hlen
          refine Or.inr (Or.inr ⟨(c :: t).length, by simp, hlen, ?_, h3⟩)
          have : p.take (c :: t).length = c :: t := (List.prefix_iff_eq_take.mp h2).symm
          rw [this]
    · rcases ih hinf with h1 | h2 | ⟨k, hk0, hkl, hka, hkb⟩
      · exact Or.inl (List.infix_cons h1)
      · exact Or.inr (Or.inl h2)
      · exact Or.inr (Or.inr ⟨k, hk0, hkl, List.suffix_cons_iff.mpr (Or.inr hka), hkb⟩)

theorem head_of_prefix_cons {α : Type} {p : List α} {c : α} {rest : List α}
    (h : p <+: c :: rest) (hne : p ≠ []) : ∃ t, p = c :: t := by
  obtain ⟨r, hr⟩ := h
  cases p with
  | nil => exact absurd rfl hne
  | cons a t =>
    simp only [List.cons_append, List.cons.injEq] at hr
    exact ⟨t, by rw [hr.1]⟩

/-- The marker cannot appear in `p ++ "\n\n" ++ f` when it appears in
neither `p` nor (a superlist of) `f`. -/
theorem marker_not_in_glued {pd fd id : List Char}
    (hp : ¬("[TRUNCATED]".data <:+: pd)) (hi : ¬("[TRUNCATED]".data <:+: id))
    (hf : fd <+: id ∨ fd = []) :
    ¬("[TRUNCATED]".data <:+: pd ++ ('\n' :: '\n' :: fd)) := by
  intro h
  have hfInfix : ¬("[TRUNCATED]".data <:+: fd) := by
    rcases hf with hpre | hnil
    · exact fun hin => hi (hin.trans hpre.isInfix)
    · subst hnil
      intro hin
      have := hin.length_le
      simp at this
  rcases infix_append_cases h with h1 | h2 | ⟨k, hk0, hkl, _, hkb⟩
  · exact hp h1
  · rcases List.infix_cons_iff.mp h2 with hpre | h3
    · obtain ⟨t, ht⟩ := head_of_prefix_cons hpre (by decide)
      simp at ht
    · rcases List.infix_cons_iff.mp h3 with hpre | h4
      · obtain ⟨t, ht⟩ := head_of_prefix_cons hpre (by decide)
        simp at ht
      · exact hfInfix h4
  · have hlen11 : ("[TRUNCATED]".data).length = 11 := rfl
    have hne : "[TRUNCATED]".data.drop k ≠ [] := by
      intro hemp
      have := congrArg List.length hemp
      simp only [List.length_drop, List.length_nil, hlen11] at this
      omega
    obtain ⟨t, ht⟩ := head_of_prefix_cons hkb hne
    have hhead : ("[TRUNCATED]".data.drop k).head? = some '\n' := by rw [ht]; rfl
    have hbounded : ∀ k' : Nat, k' < 11 → 0 < k' →
        ("[TRUNCATED]".data.drop k').head? ≠ some '\n' := by decide
    exact hbounded k (hlen11 ▸ hkl) hk0 hhead

/-- Unfolding lemma for `estimate_tokens`, kept propositional so that
rewriting with it never asks the kernel to evaluate the length of a large
string. -/
theorem estimate_tokens_def (t : String) : estimate_tokens t = t.length / 4 := rfl

/-- Unfolding lemma for `structured_full_prompt` with truncation on, again
kept propositional: it is proved once over variables so that instantiating
it at a large concrete prompt costs the kernel nothing. -/
theorem structured_full_prompt_of_trunc {p i m f : String} {w : Bool}
    (h : truncate_input_for_model p i m 2000 = (f, w)) :
    structured_full_prompt p i m true = (p ++ "\n\n" ++ f, w) := by
  unfold structured_full_prompt
  rw [h]
  rfl

/-- Case analysis of `truncate_input_for_model`: within budget, prompt
alone over budget, or a proper truncation to a take-prefix of the input
bounded by the character budget. -/
theorem truncate_cases (p i m : String) (margin : Int) :
    ((estimate_tokens p : Int) + (estimate_tokens i : Int) ≤ (model_context_limit m : Int) - margin ∧
      truncate_input_for_model p i m margin = (i, false)) ∨
    (¬((estimate_tokens p : Int) + (estimate_tokens i : Int) ≤ (model_context_limit m : Int) - margin) ∧
      (model_context_limit m : Int) - margin - (estimate_tokens p : Int) ≤ 0 ∧
      truncate_input_for_model p i m margin = ("", true)) ∨
    (¬((estimate_tokens p : Int) + (estimate_tokens i : Int) ≤ (model_context_limit m : Int) - margin) ∧
      0 < (model_context_limit m : Int) - margin - (estimate_tokens p : Int) ∧
      ∃ n, n ≤ (((model_context_limit m : Int) - margin - (estimate_tokens p : Int)) * 4).toNat ∧
        truncate_input_for_model p i m margin = (⟨i.data.take n⟩, true)) := by
  by_cases h1 : (estimate_tokens p : Int) + (estimate_tokens i : Int) ≤
      (model_context_limit m : Int) - margin
  · left
    refine ⟨h1, ?_⟩
    unfold truncate_input_for_model
    rw [if_pos h1]
  · by_cases h2 : (model_context_limit m : Int) - margin - (estimate_tokens p : Int) ≤ 0
    · right; left
      refine ⟨h1, h2, ?_⟩
      unfold truncate_input_for_model
      rw [if_neg h1, if_pos h2]
    · right; right
      refine ⟨h1, not_le.mp h2, ?_⟩
      unfold truncate_input_for_model
      rw [if_neg h1, if_neg h2]
      set chars : Int := ((model_context_limit m : Int) - margin - (estimate_tokens p : Int)) * 4 with hchars
      simp only
      split
      · next hshort =>
        split
        · next ls hls =>
          split
          · next hgt =>
            refine ⟨min ls chars.toNat, Nat.min_le_right _ _, ?_⟩
            simp [List.take_take]
          · next => exact ⟨chars.toNat, le_refl _, rfl⟩
        · next => exact ⟨chars.toNat, le_refl _, rfl⟩
      · next => exact ⟨chars.toNat, le_refl _, rfl⟩

/-- Claim C6, counterexample.  With truncation on, a prompt of 25000
characters for model gpt-4 (context 8192, margin 2000) is over budget on
its own: the input is emptied but the call is still issued, its submitted
prompt estimating 6250 tokens — above 8192 - 2000 — and no "[TRUNCATED]"
marker appears even though truncation occurred.  This refutes both halves
of the claim. -/
theorem C6_truncation_counterexample :
    (structured_full_prompt bigPrompt "bb" "gpt-4" true).2 = true ∧
    (model_context_limit "gpt-4" : Int) - 2000 <
      (estimate_tokens (structured_full_prompt bigPrompt "bb" "gpt-4" true).1 : Int) ∧
    containsSubStr "[TRUNCATED]" (structured_full_prompt bigPrompt "bb" "gpt-4" true).1 = false := by
  have hlenP : bigPrompt.length = 25000 := by
    show (List.replicate 25000 'a').length = 25000
    rw [List.length_replicate]
  have hestP : estimate_tokens bigPrompt = 6250 := by
    rw [estimate_tokens_def, hlenP]
  have hestI : estimate_tokens "bb" = 0 := rfl
  have hlim : model_context_limit "gpt-4" = 8192 := rfl
  have he : truncate_input_for_model bigPrompt "bb" "gpt-4" 2000 = ("", true) := by
    rcases truncate_cases bigPrompt "bb" "gpt-4" 2000 with ⟨hy, _⟩ | ⟨_, _, he⟩ | ⟨_, hpos, _⟩
    · rw [hestP, hestI, hlim] at hy
      omega
    · exact he
    · rw [hestP, hlim] at hpos
      omega
  have hfix : structured_full_prompt bigPrompt "bb" "gpt-4" true = (bigPrompt ++ "\n\n" ++ "", true) :=
    structured_full_prompt_of_trunc he
  rw [hfix]
  have hlen : (bigPrompt ++ "\n\n" ++ "").length = 25002 := by
    rw [String.length_append, String.length_append, hlenP]
    rfl
  have hest2 : estimate_tokens (bigPrompt ++ "\n\n" ++ "") = 6250 := by
    rw [estimate_tokens_def, hlen]
  refine ⟨rfl, ?_, ?_⟩
  · rw [hest2, hlim]
    norm_num
  · apply Bool.eq_false_iff.mpr
    intro h
    have hm : '[' ∈ (bigPrompt ++ "\n\n" ++ "").data :=
      mem_of_isSubstr h (by decide)
    rw [String.data_append, String.data_append] at hm
    have hbd : bigPrompt.data = List.replicate 25000 'a' := rfl
    rw [hbd] at hm
    rcases List.mem_append.mp hm with hm | hm
    · rcases List.mem_append.mp hm with hm | hm
      · exact absurd (List.eq_of_mem_replicate hm) (by decide)
      · exact absurd hm (by decide)
    · exact absurd hm (by decide)

/-- Claim C6, amended.  With truncation enabled: a call within budget is
left whole; when input must be cut, the retained input is a take-prefix
of the original and the part-wise estimate `tokens(prompt) +
tokens(kept_input)` fits within `context_limit - safety_margin`; but a
prompt that alone exceeds the budget empties the input and the call is
still issued over budget; and the live structured pipeline never adds a
"[TRUNCATED]" marker (the submitted prompt contains it only if the
prompt or input already did). -/
theorem C6_truncation_amended :
    ∀ (p i m : String) (margin : Int),
      ((estimate_tokens p : Int) + (estimate_tokens i : Int) ≤
          (model_context_limit m : Int) - margin →
        truncate_input_for_model p i m margin = (i, false)) ∧
      (¬((estimate_tokens p : Int) + (estimate_tokens i : Int) ≤
          (model_context_limit m : Int) - margin) →
        (model_context_limit m : Int) - margin - (estimate_tokens p : Int) ≤ 0 →
        truncate_input_for_model p i m margin = ("", true)) ∧
      (¬((estimate_tokens p : Int) + (estimate_tokens i : Int) ≤
          (model_context_limit m : Int) - margin) →
        0 < (model_context_limit m : Int) - margin - (estimate_tokens p : Int) →
        (truncate_input_for_model p i m margin).2 = true ∧
        (estimate_tokens p : Int) +
            (estimate_tokens (truncate_input_for_model p i m margin).1 : Int) ≤
          (model_context_limit m : Int) - margin ∧
        (truncate_input_for_model p i m margin).1.data <+: i.data) ∧
      (∀ tr : Bool, isSubstr ("[TRUNCATED]").data p.data = false →
        isSubstr ("[TRUNCATED]").data i.data = false →
        containsSubStr "[TRUNCATED]" (structured_full_prompt p i m tr).1 = false) := by
  intro p i m margin
  have hcases := truncate_cases p i m margin
  refine ⟨?_, ?_, ?_, ?_⟩
  · intro h1
    rcases hcases with ⟨_, he⟩ | ⟨hn, _, _⟩ | ⟨hn, _, _⟩
    · exact he
    · exact absurd h1 hn
    · exact absurd h1 hn
  · intro h1 h2
    rcases hcases with ⟨hy, _⟩ | ⟨_, _, he⟩ | ⟨_, hpos, _⟩
    · exact absurd hy h1
    · exact he
    · omega
  · intro h1 h2
    rcases hcases with ⟨hy, _⟩ | ⟨_, hle, _⟩ | ⟨_, _, n, hn, he⟩
    · exact absurd hy h1
    · omega
    · rw [he]
      dsimp only
      refine ⟨rfl, ?_, List.take_prefix n i.data⟩
      have hmit : (0 : Int) ≤ (model_context_limit m : Int) - margin - (estimate_tokens p : Int) := le_of_lt h2
      set mit : Int := (model_context_limit m : Int) - margin - (estimate_tokens p : Int) with hmitdef
      have htn : (mit * 4).toNat = mit.toNat * 4 := by
        omega
      have hest : estimate_tokens ⟨i.data.take n⟩ ≤ mit.toNat := by
        show (String.mk (i.data.take n)).length / 4 ≤ mit.toNat
        rw [String.length_mk]
        have hlen : (i.data.take n).length ≤ n := by
          simp [List.length_take]
        have hle4 : (i.data.take n).length ≤ mit.toNat * 4 := le_trans hlen (htn ▸ hn)
        calc (i.data.take n).length / 4 ≤ (mit.toNat * 4) / 4 := Nat.div_le_div_right hle4
        _ = mit.toNat := Nat.mul_div_cancel _ (by norm_num)
    -- close the arithmetic: pt + est ≤ pt + mit = limit - margin
      have : ((estimate_tokens ⟨i.data.take n⟩ : Nat) : Int) ≤ mit := by
        calc ((estimate_tokens ⟨i.data.take n⟩ : Nat) : Int) ≤ (mit.toNat : Int) := by
              exact_mod_cast hest
        _ = mit := Int.toNat_of_nonneg hmit
      omega
  · intro tr hpn hin
    have hp' : ¬("[TRUNCATED]".data <:+: p.data) := by
      rw [← isSubstr_infix_iff, hpn]; simp
    have hi' : ¬("[TRUNCATED]".data <:+: i.data) := by
      rw [← isSubstr_infix_iff, hin]; simp
    have main : ∀ f : String, (f.data <+: i.data ∨ f.data = []) →
        containsSubStr "[TRUNCATED]" (p ++ "\n\n" ++ f) = false := by
      intro f hf
      apply Bool.eq_false_iff.mpr
      intro h
      have hinf := isSubstr_infix_iff.mp h
      have hglue : ((p ++ "\n\n") ++ f).data = p.data ++ ('\n' :: '\n' :: f.data) := by
        have h2 : ("\n\n").data = ['\n', '\n'] := rfl
        simp [String.data_append, h2]
      rw [hglue] at hinf
      exact marker_not_in_glued hp' hi' hf hinf
    cases tr with
    | false => exact main i (Or.inl (List.prefix_refl _))
    | true =>
      rcases truncate_cases p i m 2000 with ⟨_, he⟩ | ⟨_, _, he⟩ | ⟨_, _, n, _, he⟩
      · have heq : (structured_full_prompt p i m true).1 = p ++ "\n\n" ++ i := by
          unfold structured_full_prompt
          rw [he]
          rfl
        rw [heq]
        exact main i (Or.inl (List.prefix_refl _))
      · have heq : (structured_full_prompt p i m true).1 = p ++ "\n\n" ++ "" := by
          unfold structured_full_prompt
          rw [he]
          rfl
        rw [heq]
        exact main "" (Or.inr rfl)
      · have heq : (structured_full_prompt p i m true).1 = p ++ "\n\n" ++ ⟨i.data.take n⟩ := by
          unfold structured_full_prompt
          rw [he]
          rfl
        rw [heq]
        exact main ⟨i.data.take n⟩ (Or.inl (List.take_prefix _ _))

/-- Evaluation of `pyStrLe` on two one-character strings: plain comparison
of the code points. -/
theorem pyStrLe_single (a c : Char) :
    pyStrLe [a] [c] = decide (a.toNat ≤ c.toNat) := by
  by_cases h1 : a.toNat < c.toNat
  · have h3 : a.toNat ≤ c.toNat := Nat.le_of_lt h1
    simp [pyStrLe, h1, h3]
  · by_cases h2 : c.toNat < a.toNat
    · have h3 : ¬(a.toNat ≤ c.toNat) := by omega
      simp [pyStrLe, h1, h2, h3]
    · have h3 : a.toNat ≤ c.toNat := by omega
      simp [pyStrLe, h1, h2, h3]

/-- Evaluation of `pyStrLe` with a two-character string on the left of a
one-character string: the second character only matters when the first
characters tie, and then the one-character string is a proper prefix, so
the two-character lower bound demands a STRICTLY larger first code
point. -/
theorem pyStrLe_two_left (a b c : Char) :
    pyStrLe [a, b] [c] = decide (a.toNat < c.toNat) := by
  by_cases h1 : a.toNat < c.toNat
  · simp [pyStrLe, h1]
  · by_cases h2 : c.toNat < a.toNat
    · simp [pyStrLe, h1, h2]
    · simp [pyStrLe, h1, h2]

/-- Evaluation of `pyStrLe` with a two-character string on the right of a
one-character string: on a first-character tie the one-character string is
a proper prefix and compares smaller, so the bound only constrains the
first code point (non-strictly). -/
theorem pyStrLe_two_right (c a b : Char) :
    pyStrLe [c] [a, b] = decide (c.toNat ≤ a.toNat) := by
  by_cases h1 : c.toNat < a.toNat
  · have h3 : c.toNat ≤ a.toNat := Nat.le_of_lt h1
    simp [pyStrLe, h1, h3]
  · by_cases h2 : a.toNat < c.toNat
    · have h3 : ¬(c.toNat ≤ a.toNat) := by omega
      simp [pyStrLe, h1, h2, h3]
    · have h3 : c.toNat ≤ a.toNat := by omega
      simp [pyStrLe, h1, h2, h3]

/-- The character class `contains_hanzi` actually matches, as numeric
code-point ranges.  The three blocks whose bounds are genuine single
characters come out as commented; each five-hex-digit bound pair instead
yields a band of Basic Multilingual Plane characters (the lower bound
strict by `pyStrLe_two_left`, then shifted to a non-strict bound one
higher), and no clause matches any character above U+FFFF. -/
theorem isHanziChar_iff (c : Char) :
    isHanziChar c = true ↔
      (0x4E00 ≤ c.toNat ∧ c.toNat ≤ 0x9FFF) ∨
      (0x3400 ≤ c.toNat ∧ c.toNat ≤ 0x4DBF) ∨
      (0x2001 ≤ c.toNat ∧ c.toNat ≤ 0x2A6D) ∨
      (0x2A71 ≤ c.toNat ∧ c.toNat ≤ 0x2B73) ∨
      (0x2B75 ≤ c.toNat ∧ c.toNat ≤ 0x2B81) ∨
      (0x2B83 ≤ c.toNat ∧ c.toNat ≤ 0x2CEA) ∨
      (0xF900 ≤ c.toNat ∧ c.toNat ≤ 0xFAFF) ∨
      (0x2F81 ≤ c.toNat ∧ c.toNat ≤ 0x2FA1) := by
  have e1 : ('\u4e00').toNat = 0x4E00 := rfl
  have e2 : ('\u9fff').toNat = 0x9FFF := rfl
  have e3 : ('\u3400').toNat = 0x3400 := rfl
  have e4 : ('\u4dbf').toNat = 0x4DBF := rfl
  have e5 : ('\u2000').toNat = 0x2000 := rfl
  have e6 : ('\u2a6d').toNat = 0x2A6D := rfl
  have e7 : ('\u2a70').toNat = 0x2A70 := rfl
  have e8 : ('\u2b73').toNat = 0x2B73 := rfl
  have e9 : ('\u2b74').toNat = 0x2B74 := rfl
  have e10 : ('\u2b81').toNat = 0x2B81 := rfl
  have e11 : ('\u2b82').toNat = 0x2B82 := rfl
  have e12 : ('\u2cea').toNat = 0x2CEA := rfl
  have e13 : ('\uf900').toNat = 0xF900 := rfl
  have e14 : ('\ufaff').toNat = 0xFAFF := rfl
  have e15 : ('\u2f80').toNat = 0x2F80 := rfl
  have e16 : ('\u2fa1').toNat = 0x2FA1 := rfl
  simp only [isHanziChar, pyStrLe_single, pyStrLe_two_left, pyStrLe_two_right,
    e1, e2, e3, e4, e5, e6, e7, e8, e9, e10, e11, e12, e13, e14, e15, e16,
    Bool.or_eq_true, Bool.and_eq_true, decide_eq_true_eq]
  omega

/-- Claim C4, divergence.  Because the code's five-hex-digit bounds are
two-character strings, `contains_hanzi` matches exactly the ranges of
`isHanziChar_iff`: the three intended BMP blocks plus five bands of BMP
punctuation and symbols, and never a character above U+FFFF — none of the
extension blocks B through F is recognised.  Hence `lang: zh` validation
rejects the Extension B ideograph U+20000, which lies in the claim's
character class, while the en dash U+2013, which does not, counts as
hanzi: it passes `lang: zh` and makes `lang: en` validation fail.  The
structured validator `validate_languages` applies exactly this flawed
test to each declared field, skipping absent and None values. -/
theorem C4_language_validation_divergence :
    (∀ c : Char, isHanziChar c = true ↔
      (0x4E00 ≤ c.toNat ∧ c.toNat ≤ 0x9FFF) ∨
      (0x3400 ≤ c.toNat ∧ c.toNat ≤ 0x4DBF) ∨
      (0x2001 ≤ c.toNat ∧ c.toNat ≤ 0x2A6D) ∨
      (0x2A71 ≤ c.toNat ∧ c.toNat ≤ 0x2B73) ∨
      (0x2B75 ≤ c.toNat ∧ c.toNat ≤ 0x2B81) ∨
      (0x2B83 ≤ c.toNat ∧ c.toNat ≤ 0x2CEA) ∨
      (0xF900 ≤ c.toNat ∧ c.toNat ≤ 0xFAFF) ∨
      (0x2F81 ≤ c.toNat ∧ c.toNat ≤ 0x2FA1)) ∧
    (∀ c : Char, 0x10000 ≤ c.toNat → isHanziChar c = false) ∧
    (∀ v : String,
      ((validate_language v "zh" = true) ↔ (v = "" ∨ contains_hanzi v = true)) ∧
      ((validate_language v "en" = true) ↔ contains_hanzi v = false)) ∧
    (∀ (fields : List (String × PyVal)) (fname lang : String),
      (validateLanguages ⟨"documents", [], "direct_column", none, [], "sha1",
          [(fname, lang)], [], [], []⟩ fields = none) ↔
        (∀ val, fields.lookup fname = some val → isNoneV val = true ∨
          validate_language (pyStr val) lang = true)) ∧
    claimContainsCJK ⟨[Char.ofNat 0x20000]⟩ = true ∧
    contains_hanzi ⟨[Char.ofNat 0x20000]⟩ = false ∧
    validate_language ⟨[Char.ofNat 0x20000]⟩ "zh" = false ∧
    claimContainsCJK ⟨[Char.ofNat 0x2013]⟩ = false ∧
    contains_hanzi ⟨[Char.ofNat 0x2013]⟩ = true ∧
    validate_language ⟨[Char.ofNat 0x2013]⟩ "en" = false := by
  refine ⟨isHanziChar_iff, ?_, ?_, ?_,
    by decide, by decide, by rfl, by decide, by decide, by rfl⟩
  · intro c h
    cases hb : isHanziChar c with
    | false => rfl
    | true =>
      exfalso
      rcases (isHanziChar_iff c).mp hb with h1 | h1 | h1 | h1 | h1 | h1 | h1 | h1 <;> omega
  · intro v
    refine ⟨?_, ?_⟩
    · by_cases hv : v = ""
      · subst hv; simp [validate_language]
      · simp only [validate_language, hv]
        simp [show strLower "zh" = "zh" from rfl]
    · by_cases hv : v = ""
      · subst hv; simp [validate_language, contains_hanzi]
      · simp only [validate_language, hv]
        simp [show strLower "en" = "en" from rfl, show ¬(strLower "en" = "zh") from by decide]
  · intro fields fname lang
    simp only [validateLanguages, List.findSome?]
    cases h : fields.lookup fname with
    | none => simp [h]
    | some val =>
      simp only [h]
      by_cases hn : isNoneV val = true
      · simp [hn]
      · by_cases hval : validate_language (pyStr val) lang = true
        · simp [hn, hval]
        · simp [hn, hval]

/-- Claim C3, evaluation at the failing input.  For the enum_list field
`topics` (choices a-d, min_items 1, max_items 3) and the provider output
`["a", "b", "a"]`: the generated structured-output validator accepts the
list as-is, and the live pipeline stores the derived-table value
`["a", "b", "a"]` — not `dedupe_preserving_order` of it, which is
`["a", "b"]` and which only the legacy `EnumListSchemaManager` computes. -/
theorem C3_enum_list_dedupe_divergence :
    pydantic_enum_list_accepts ["a", "b", "c", "d"] (some 1) (some 3) ["a", "b", "a"] = true ∧
    dedupe_preserving_order ["a", "b", "a"] = ["a", "b"] ∧
    validate_items topicsEnumList ["a", "b", "a"] = .ok ["a", "b"] ∧
    (∃ msg, validate_items topicsEnumList [] = .error (.schemaErr msg)) ∧
    ((process_and_save stratTopics (fun _ => none) cfgTopics rowA orcDupTopics
        ⟨[], [("analysis", ⟨true, []⟩)]⟩).2.2.1.filter Event.isDerivedWrite =
      [.derivedWrite "analysis" "a1b2c3" (some "gpt-4o-mini") (some "EID-S")
         [("topics", .vStr "[\"a\", \"b\", \"a\"]")] true]) :=
  ⟨rfl, rfl, rfl, ⟨"Response must contain at least 1 items", rfl⟩, rfl⟩

/-- Claim C8.  Strategy resolution (a) fails on a multi-field schema with
no output_table, (b) yields separate_table mode whenever output_table is
given, and (c) yields direct_column mode with the single schema field as
the one output column for a single-field schema without output_table. -/
theorem C8_strategy_resolution :
    ∀ (cfg : EnrichmentConfigD) (dt : String) (fields : SchemaDict),
      cfg.schema = some fields →
      ((fields.length > 1 → cfg.output_table = none →
         ∃ msg, determine_enrichment_strategy cfg dt = .error msg) ∧
       (∀ t s, cfg.output_table = some t →
         determine_enrichment_strategy cfg dt = .ok s →
         s.storage_mode = "separate_table" ∧ s.output_table = some t) ∧
       (∀ fn fd s, fields = [(fn, fd)] → cfg.output_table = none →
         determine_enrichment_strategy cfg dt = .ok s →
         s.storage_mode = "direct_column" ∧ s.output_columns = [fn])) := by
  intro cfg dt fields hs
  refine ⟨?_, ?_, ?_⟩
  · intro hlen hot
    match fields, hlen with
    | (f1 :: f2 :: rest), hlen =>
      refine ⟨"complex schema but no output_table specified", ?_⟩
      simp only [determine_enrichment_strategy, hs, hot]
      rw [if_pos ⟨by simp, by trivial⟩]
  · intro t s hot hok
    match fields with
    | [] => simp [determine_enrichment_strategy, hs] at hok
    | f1 :: rest =>
      simp only [determine_enrichment_strategy, hs, hot] at hok
      rw [if_neg (by simp)] at hok
      by_cases hc : ((f1 :: rest).all fun p => p.2.compileOk) = true
      · rw [if_pos hc] at hok
        cases hok
        constructor
        · simp
        · simp [hot]
      · rw [if_neg hc] at hok
        cases hok
  · intro fn fd s hf hot hok
    subst hf
    simp only [determine_enrichment_strategy, hs, hot] at hok
    rw [if_neg (by simp)] at hok
    by_cases hc : ([(fn, fd)].all fun p => p.2.compileOk) = true
    · rw [if_pos hc] at hok
      cases hok
      constructor
      · simp [hot]
      · simp
    · rw [if_neg hc] at hok
      cases hok

/-- Claim C8, witness: resolving the concrete single-field enum config
`cfgC8` yields the direct-column strategy `sC8`, whose mode and output
column the theorem pins down. -/
theorem C8_strategy_resolution_witness :
    determine_enrichment_strategy cfgC8 "documents" = .ok sC8 ∧
    sC8.storage_mode = "direct_column" ∧ sC8.output_columns = ["sentiment"] := by
  have hok : determine_enrichment_strategy cfgC8 "documents" = .ok sC8 := by rfl
  have h := (C8_strategy_resolution cfgC8 "documents"
    [("sentiment", FieldDef.enumDef ["positive", "negative"] none none)] rfl).2.2
    "sentiment" (FieldDef.enumDef ["positive", "negative"] none none) sC8 rfl rfl hok
  exact ⟨hok, h.1, h.2⟩

/-! ### Pipeline trace lemmas -/

/-- The structured retry loop emits only `call` events, all tagged with
the row sha1, and its result record keeps the enrichment id, sha1 and
rowid it was given. -/
theorem structuredAttemptLoop_spec (strat : EnrichmentStrategy)
    (conv : String → Option (String → String)) (oracle : Nat → CallOutcome)
    (sha1 fp eid : String) (rowid : Option Int) :
    ∀ (fuel attempt : Nat),
      (structuredAttemptLoop strat conv oracle sha1 fp eid rowid attempt fuel).1.enrichment_id = eid ∧
      (structuredAttemptLoop strat conv oracle sha1 fp eid rowid attempt fuel).1.sha1 = sha1 ∧
      (structuredAttemptLoop strat conv oracle sha1 fp eid rowid attempt fuel).2.all
        (fun e => Event.isCall e && (Event.sha1Of e == sha1)) = true := by
  intro fuel
  induction fuel with
  | zero =>
    intro attempt
    unfold structuredAttemptLoop
    split
    · simp [Event.isCall, Event.sha1Of]
    · split
      · exfalso; omega
      · dsimp only
        split <;> simp [Event.isCall, Event.sha1Of]
  | succ f ih =>
    intro attempt
    unfold structuredAttemptLoop
    split
    · simp [Event.isCall, Event.sha1Of]
    · split
      · rename_i f2 heq
        obtain rfl : f2 = f := by omega
        dsimp only
        split
        · simp [Event.isCall, Event.sha1Of]
        · rcases hL : structuredAttemptLoop strat conv oracle sha1 fp eid rowid (attempt + 1) f2
            with ⟨r, evs⟩
          have h2 := ih (attempt + 1)
          rw [hL] at h2
          simp only [hL, List.all_cons]
          refine ⟨h2.1, h2.2.1, ?_⟩
          simp only [Event.isCall, Event.sha1Of, beq_self_eq_true, Bool.and_true, true_and]
          simpa using h2.2.2
      · exfalso; omega

/-- Weakening for `List.all`. -/
theorem all_weaken {α : Type} {l : List α} {p q : α → Bool}
    (hpq : ∀ e, p e = true → q e = true) (h : l.all p = true) : l.all q = true := by
  rw [List.all_eq_true] at h ⊢
  exact fun e he => hpq e (h e he)

/-- `takeWhile` runs through a prefix the predicate accepts and stops at
the first rejected element. -/
theorem takeWhile_append_stop {α : Type} (p : α → Bool) (S : List α) (a : α) (r : List α)
    (hS : S.all p = true) (ha : p a = false) :
    (S ++ a :: r).takeWhile p = S := by
  induction S with
  | nil => simp [List.takeWhile_cons, ha]
  | cons x xs ih =>
    rw [List.all_cons, Bool.and_eq_true] at hS
    simp [List.takeWhile_cons, hS.1, ih hS.2]

/-- `update_output_table` either writes nothing (no value survives the
null-likeness filter) or emits exactly one derived-table write carrying
the key, the given enrichment id and the meaningful serialized data. -/
theorem update_output_table_spec (st : DbState) (t kc kv : String)
    (od : List (String × PyVal)) (eid model : Option String)
    (st2 : DbState) (wevs : List Event)
    (h : update_output_table st t kc kv od eid model = .ok (st2, wevs)) :
    (wevs = [] ∧ od.filter (fun p => meaningfulVal p.2) = [] ∧ st2 = st) ∨
    (∃ m ins, wevs = [.derivedWrite t kv m eid
        ((od.filter (fun p => meaningfulVal p.2)).map (fun p => (p.1, serializeVal p.2))) ins] ∧
      od.filter (fun p => meaningfulVal p.2) ≠ []) := by
  unfold update_output_table at h
  rcases hl : st.tables.lookup t with _ | td
  · rw [hl] at h; cases h
  · rw [hl] at h
    dsimp only at h
    by_cases he : (od.filter (fun p => meaningfulVal p.2)).isEmpty = true
    · rw [if_pos he] at h
      cases h
      exact Or.inl ⟨rfl, List.isEmpty_iff.mp he, rfl⟩
    · rw [if_neg he] at h
      cases h
      refine Or.inr ⟨_, _, rfl, ?_⟩
      intro hnil
      exact he (by simp [hnil])

/-- The audit-then-write block of the generic legacy branches: one audit
append tagged with the result record's enrichment id and sha1, followed
only by writes that carry that enrichment id (derived) and are keyed by
the result sha1 or the `NO_KEY` placeholder; a non-truthy result writes
nothing. -/
theorem legacy_store_spec (cfg : PipeCfg) (r : RowResult) (st : DbState) :
    ∃ wevs,
      (legacy_store cfg r st).2.1 =
        Event.auditAppend (some r.enrichment_id) r.sha1 cfg.ename cfg.model :: wevs ∧
      wevs.all (fun e => Event.isWrite e &&
        (!Event.isDerivedWrite e || Event.eidOf e == some r.enrichment_id)) = true ∧
      (cfg.key_column = "sha1" →
        wevs.all (fun e => Event.sha1Of e == r.sha1 || Event.sha1Of e == "NO_KEY") = true) ∧
      (r.updatedTruthy = false → wevs = []) := by
  unfold legacy_store
  rcases ht : r.updatedTruthy with _ | _
  · simp only [store_raw_enrichment_response, ht, reduceIte]
    exact ⟨[], by simp, by simp, fun _ => by simp, fun _ => rfl⟩
  · simp only [store_raw_enrichment_response, ht, reduceIte]
    rcases hot : cfg.output_table with _ | ot
    · simp only [hot, update_database]
      refine ⟨_, rfl, ?_, fun _ => ?_, by simp [ht]⟩
      · simp [Event.isWrite, Event.isDerivedWrite, Event.sha1Of, Event.eidOf]
      · simp [Event.sha1Of]
    · simp only [hot]
      split
      · rename_i st2 wevs0 heq
        rcases update_output_table_spec _ _ _ _ _ _ _ _ _ heq with ⟨hw, _, _⟩ | ⟨m, ins, hw, _⟩
        · exact ⟨wevs0, rfl, by rw [hw]; rfl, fun _ => by rw [hw]; rfl, by simp [ht]⟩
        · refine ⟨wevs0, rfl, ?_, fun hkc => ?_, by simp [ht]⟩
          · rw [hw]
            simp [Event.isWrite, Event.isDerivedWrite, Event.eidOf]
          · rw [hw]
            simp [Event.sha1Of, keyOfResult, hkc]
      · exact ⟨[], rfl, by simp, fun _ => by simp, by simp [ht]⟩

/-- The audit-then-write block of the by-line translation branch: one
audit append, then only direct writes keyed `NO_KEY`; a non-truthy result
writes nothing. -/
theorem translation_store_spec (cfg : PipeCfg) (r : RowResult) (st : DbState) :
    ∃ wevs,
      (translation_store cfg r st).2 =
        Event.auditAppend (some r.enrichment_id) r.sha1 cfg.ename cfg.model :: wevs ∧
      wevs.all (fun e => Event.isWrite e && !Event.isDerivedWrite e &&
        (Event.sha1Of e == "NO_KEY")) = true ∧
      (r.updatedTruthy = false → wevs = []) := by
  unfold translation_store
  rcases ht : r.updatedTruthy with _ | _
  · simp only [store_raw_enrichment_response, ht, reduceIte]
    exact ⟨[], by simp, by simp, fun _ => rfl⟩
  · simp only [store_raw_enrichment_response, ht, reduceIte, update_database]
    refine ⟨_, rfl, ?_, by simp [ht]⟩
    simp [Event.isWrite, Event.isDerivedWrite, Event.sha1Of]

/-- The legacy text path issues exactly one legacy call and keeps the
given enrichment id and row sha1 in its result record. -/
theorem process_row_legacy_spec (cfg : PipeCfg) (row : Row) (eid : String)
    (outcome : LegacyOutcome) :
    (process_row_legacy cfg row eid outcome).2 = [Event.legacyCall row.sha1D] ∧
    (process_row_legacy cfg row eid outcome).1.enrichment_id = eid ∧
    (process_row_legacy cfg row eid outcome).1.sha1 = row.sha1D := by
  unfold process_row_legacy
  dsimp only
  split
  · split <;> simp
  · split
    · split <;> simp
    · simp

/-- The translation path emits only legacy-call events tagged with the
row sha1 and keeps the given enrichment id and row sha1. -/
theorem process_translation_spec (cfg : PipeCfg) (row : Row) (eid : String)
    (outcome : TransOutcome) :
    (process_translation cfg row eid outcome).2.all
      (fun e => Event.isLegacyCall e && (Event.sha1Of e == row.sha1D)) = true ∧
    (process_translation cfg row eid outcome).1.enrichment_id = eid ∧
    (process_translation cfg row eid outcome).1.sha1 = row.sha1D := by
  unfold process_translation
  dsimp only
  split
  · simp
  · split <;> simp [Event.isLegacyCall, Event.sha1Of]

/-- `process_row_structured` keeps the minted enrichment id and the row
sha1, and emits only call events tagged with the row sha1. -/
theorem process_row_structured_spec (strat : EnrichmentStrategy)
    (conv : String → Option (String → String)) (cfg : PipeCfg) (row : Row)
    (eid : String) (oracle : Nat → CallOutcome) :
    (process_row_structured strat conv cfg row eid oracle).1.enrichment_id = eid ∧
    (process_row_structured strat conv cfg row eid oracle).1.sha1 = row.sha1D ∧
    (process_row_structured strat conv cfg row eid oracle).2.all
      (fun e => Event.isCall e && (Event.sha1Of e == row.sha1D)) = true := by
  unfold process_row_structured
  rcases hX : structured_full_prompt (templateSub cfg.prompt cfg.parsed_input_cols
      (apply_column_limits row cfg.parsed_input_cols))
      (inputTextOf cfg.parsed_input_cols (apply_column_limits row cfg.parsed_input_cols))
      cfg.model cfg.truncate with ⟨fp, tr⟩
  simp only [hX]
  exact structuredAttemptLoop_spec strat conv oracle row.sha1D fp eid row.rowid 2 0

/-- The legacy fallback of `process_and_save`: legacy call events, one
audit append for the fallback result (tagged with the fallback enrichment
id and the row sha1), then only writes carrying that enrichment id. -/
theorem legacy_fallback_spec (cfg : PipeCfg) (row : Row) (orc : RowOracles)
    (st : DbState) :
    ∃ L wevs,
      (legacy_fallback cfg row orc st).2.2.1 =
        L ++ Event.auditAppend (some orc.eidL) row.sha1D cfg.ename cfg.model :: wevs ∧
      L.all (fun e => Event.isLegacyCall e && (Event.sha1Of e == row.sha1D)) = true ∧
      wevs.all (fun e => Event.isWrite e &&
        (!Event.isDerivedWrite e || Event.eidOf e == some orc.eidL)) = true ∧
      (cfg.key_column = "sha1" →
        wevs.all (fun e => Event.sha1Of e == row.sha1D || Event.sha1Of e == "NO_KEY") = true) := by
  unfold legacy_fallback
  split
  · rcases hpt : process_translation cfg row orc.eidL orc.trans with ⟨r, evs⟩
    obtain ⟨hall, hid, hsha⟩ := process_translation_spec cfg row orc.eidL orc.trans
    rw [hpt] at hall hid hsha
    dsimp only at hall hid hsha
    obtain ⟨wevs, hw, hpred, himp⟩ := translation_store_spec cfg r st
    simp only [hpt, hw, hid, hsha]
    refine ⟨evs, wevs, by simp, hall, ?_, fun _ => ?_⟩
    · refine all_weaken (fun e he => ?_) hpred
      rw [Bool.and_eq_true, Bool.and_eq_true] at he
      simp [he.1.1, he.1.2]
    · refine all_weaken (fun e he => ?_) hpred
      rw [Bool.and_eq_true, Bool.and_eq_true] at he
      simp [he.2]
  · rcases hpl : process_row_legacy cfg row orc.eidL orc.legacy with ⟨r, evs⟩
    obtain ⟨hevs, hid, hsha⟩ := process_row_legacy_spec cfg row orc.eidL orc.legacy
    rw [hpl] at hevs hid hsha
    dsimp only at hevs hid hsha
    obtain ⟨wevs, hw, hpred, hkey, himp⟩ := legacy_store_spec cfg r st
    simp only [hpl, hw, hid, hsha, hevs]
    refine ⟨[Event.legacyCall row.sha1D], wevs, by simp, by simp [Event.isLegacyCall, Event.sha1Of], ?_, fun hkc => ?_⟩
    · exact all_weaken (fun e he => by rw [← hid]; exact he) hpred
    · have := hkey hkc
      exact all_weaken (fun e he => by rw [← hsha]; exact he) this

/-- Trace decomposition of `process_and_save`: structured call events,
then the audit append for the structured result, then either only writes
(no fallback, derived writes carrying the structured enrichment id) or
the legacy fallback tail — legacy calls, a second audit append, then only
writes carrying the fallback enrichment id. -/
theorem process_and_save_spine (strat : EnrichmentStrategy)
    (conv : String → Option (String → String)) (cfg : PipeCfg) (row : Row)
    (orc : RowOracles) (st : DbState) :
    ∃ S rest,
      (process_and_save strat conv cfg row orc st).2.2.1 =
        S ++ Event.auditAppend (some orc.eidS) row.sha1D cfg.ename cfg.model :: rest ∧
      S.all (fun e => Event.isCall e && (Event.sha1Of e == row.sha1D)) = true ∧
      (((process_and_save strat conv cfg row orc st).2.2.2.1 = false ∧
        rest.all (fun e => Event.isWrite e &&
          (!Event.isDerivedWrite e || Event.eidOf e == some orc.eidS)) = true ∧
        (strat.key_column = "sha1" →
          rest.all (fun e => Event.sha1Of e == row.sha1D) = true)) ∨
       ((process_and_save strat conv cfg row orc st).2.2.2.1 = true ∧
        ∃ L wevs,
          rest = L ++ Event.auditAppend (some orc.eidL) row.sha1D cfg.ename cfg.model :: wevs ∧
          L.all (fun e => Event.isLegacyCall e && (Event.sha1Of e == row.sha1D)) = true ∧
          wevs.all (fun e => Event.isWrite e &&
            (!Event.isDerivedWrite e || Event.eidOf e == some orc.eidL)) = true ∧
          (cfg.key_column = "sha1" →
            wevs.all (fun e => Event.sha1Of e == row.sha1D || Event.sha1Of e == "NO_KEY") = true))) := by
  obtain ⟨hid, hsha, hall⟩ := process_row_structured_spec strat conv cfg row orc.eidS orc.structured
  unfold process_and_save
  rcases hpr : process_row_structured strat conv cfg row orc.eidS orc.structured with ⟨r, evs⟩
  rw [hpr] at hid hsha hall
  dsimp only at hid hsha hall
  simp only [hpr, store_raw_enrichment_response, hsha]
  generalize hst1 : (⟨st.audit ++ [⟨some orc.eidS, row.sha1D, cfg.ename, rawJsonOf r,
      cfg.model, some cfg.prompt_id, r.full_prompt⟩], st.tables⟩ : DbState) = st1
  split
  · split
    · rename_i st2 wevs0 heq
      rcases update_output_table_spec _ _ _ _ _ _ _ _ _ heq with ⟨hw, _, _⟩ | ⟨m, ins, hw, _⟩
      · exact ⟨evs, wevs0, by simp, hall, Or.inl ⟨rfl, by rw [hw]; rfl, fun _ => by rw [hw]; rfl⟩⟩
      · refine ⟨evs, wevs0, by simp, hall, Or.inl ⟨rfl, ?_, fun hks => ?_⟩⟩
        · rw [hw]
          simp [Event.isWrite, Event.isDerivedWrite, Event.eidOf]
        · rw [hw]
          simp [Event.sha1Of, keyOfResult, hks, hsha]
    · obtain ⟨L, wevs, htr, hL, hw, hB⟩ := legacy_fallback_spec cfg row orc st1
      refine ⟨evs, (legacy_fallback cfg row orc st1).2.2.1, ?_, hall,
        Or.inr ⟨rfl, L, wevs, htr, hL, hw, hB⟩⟩
      simp
  · split
    · rename_i cn hcols
      split
      · rename_i d hupd
        simp only [update_database]
        refine ⟨evs, [Event.directWrite cfg.table cn r.rowid row.sha1D
          ((List.lookup cn d).getD PyVal.vNone) none], ?_, hall,
          Or.inl ⟨by trivial, ?_, fun _ => ?_⟩⟩
        · simp
        · simp [Event.isWrite, Event.isDerivedWrite, Event.eidOf]
        · simp [Event.sha1Of]
      · obtain ⟨L, wevs, htr, hL, hw, hB⟩ := legacy_fallback_spec cfg row orc st1
        refine ⟨evs, (legacy_fallback cfg row orc st1).2.2.1, ?_, hall,
          Or.inr ⟨rfl, L, wevs, htr, hL, hw, hB⟩⟩
        simp
    · exact ⟨evs, [], by simp, hall, Or.inl ⟨rfl, rfl, fun _ => rfl⟩⟩

/-- A call event is no audit append and no write. -/
theorem isCall_class (e : Event) (h : Event.isCall e = true) :
    Event.isAudit e = false ∧ Event.isWrite e = false ∧ Event.isDerivedWrite e = false := by
  cases e <;> simp_all [Event.isCall, Event.isAudit, Event.isWrite, Event.isDerivedWrite]

/-- A legacy-call event is no audit append and no write. -/
theorem isLegacyCall_class (e : Event) (h : Event.isLegacyCall e = true) :
    Event.isAudit e = false ∧ Event.isWrite e = false ∧ Event.isDerivedWrite e = false := by
  cases e <;> simp_all [Event.isLegacyCall, Event.isAudit, Event.isWrite, Event.isDerivedWrite]

/-- A write event is no audit append. -/
theorem isWrite_class (e : Event) (h : Event.isWrite e = true) :
    Event.isAudit e = false := by
  cases e <;> simp_all [Event.isWrite, Event.isAudit]

/-- Claim C5, evaluation at the failing input.  For a direct-column
`lang: zh` enrichment whose three structured attempts all return English:
the retry loop itself behaves as claimed — three provider calls, an error
record with `updated = None` and an error-object raw_json — but the
pipeline does not stop there.  The storage step dereferences
`result['updated'].get(column_name)` on the None result, the exception is
swallowed, and the legacy fallback issues a fourth provider call and a
second audit append; the row ends with the legacy result, not the error
record. -/
theorem C5_language_retry_divergence :
    ((process_row_structured stratZh (fun _ => none) cfgZh rowA "EID-S"
        orcAllEnglish.structured).1.updated = none ∧
     (process_row_structured stratZh (fun _ => none) cfgZh rowA "EID-S"
        orcAllEnglish.structured).1.error =
       some "Language validation failed after 3 attempts: Field summary_zh must be in zh") ∧
    ((process_and_save stratZh (fun _ => none) cfgZh rowA orcAllEnglish
        dbEmpty).2.2.1.filter Event.isCall).length = 3 ∧
    ((process_and_save stratZh (fun _ => none) cfgZh rowA orcAllEnglish
        dbEmpty).2.2.1.filter Event.isLegacyCall).length = 1 ∧
    ((process_and_save stratZh (fun _ => none) cfgZh rowA orcAllEnglish
        dbEmpty).2.2.1.filter Event.isAudit).length = 2 ∧
    ((process_and_save stratZh (fun _ => none) cfgZh rowA orcAllEnglish
        dbEmpty).2.2.1.filter Event.isWrite).length = 0 ∧
    (process_and_save stratZh (fun _ => none) cfgZh rowA orcAllEnglish
        dbEmpty).2.2.2.1 = true :=
  ⟨⟨rfl, rfl⟩, rfl, rfl, rfl, rfl, rfl⟩

/-- Claim C2, counterexample.  With the language-retry oracle that fails
twice and passes on the third attempt: three provider calls are made but
exactly one audit row is appended (one per row result, not one per call),
and the direct-column projected write carries no enrichment_id at all —
the audit row's id is `some "EID-S"` while the write records `none`. -/
theorem C2_per_call_audit_counterexample :
    ((process_and_save stratZh (fun _ => none) cfgZh rowA orcThirdTimeChinese
        dbEmpty).2.2.1.filter Event.isCall).length = 3 ∧
    ((process_and_save stratZh (fun _ => none) cfgZh rowA orcThirdTimeChinese
        dbEmpty).2.2.1.filter Event.isAudit).length = 1 ∧
    ((process_and_save stratZh (fun _ => none) cfgZh rowA orcThirdTimeChinese
        dbEmpty).2.2.1.filter Event.isAudit).map Event.eidOf = [some "EID-S"] ∧
    ((process_and_save stratZh (fun _ => none) cfgZh rowA orcThirdTimeChinese
        dbEmpty).2.2.1.filter Event.isWrite).map Event.eidOf = [none] :=
  ⟨rfl, rfl, rfl, rfl⟩

/-- Claim C2, amended.  Per processed row, one audit row is appended per
row result — carrying the structured task's enrichment_id — and a second
one carrying the fallback's enrichment_id when the legacy fallback runs
(three calls under language retries share one audit row); every event
before the first audit append is a provider call, never a projected
write, so the audit append strictly precedes all projected writes; and
every derived-table write carries one of the two enrichment ids (direct
UPDATEs record none, as the counterexample shows). -/
theorem C2_audit_ordering_amended :
    ∀ (strat : EnrichmentStrategy) (conv : String → Option (String → String))
      (cfg : PipeCfg) (row : Row) (orc : RowOracles) (st : DbState),
      (((process_and_save strat conv cfg row orc st).2.2.1.filter Event.isAudit).map
          Event.eidOf =
        (if (process_and_save strat conv cfg row orc st).2.2.2.1
         then [some orc.eidS, some orc.eidL] else [some orc.eidS])) ∧
      (((process_and_save strat conv cfg row orc st).2.2.1.takeWhile
          (fun e => !Event.isAudit e)).all (fun e => !Event.isWrite e) = true) ∧
      (((process_and_save strat conv cfg row orc st).2.2.1.filter
          Event.isDerivedWrite).all
        (fun e => Event.eidOf e == some orc.eidS || Event.eidOf e == some orc.eidL) =
          true) := by
  intro strat conv cfg row orc st
  obtain ⟨S, rest, htr, hS, hcase⟩ := process_and_save_spine strat conv cfg row orc st
  have hSfacts : ∀ e ∈ S, Event.isAudit e = false ∧ Event.isWrite e = false ∧
      Event.isDerivedWrite e = false := by
    intro e he
    have h1 := (List.all_eq_true.mp hS) e he
    rw [Bool.and_eq_true] at h1
    exact isCall_class e h1.1
  have hSa : S.filter Event.isAudit = [] := by
    rw [List.filter_eq_nil_iff]
    intro e he
    simp [(hSfacts e he).1]
  have hSd : S.filter Event.isDerivedWrite = [] := by
    rw [List.filter_eq_nil_iff]
    intro e he
    simp [(hSfacts e he).2.2]
  have htw : ((process_and_save strat conv cfg row orc st).2.2.1.takeWhile
      (fun e => !Event.isAudit e)).all (fun e => !Event.isWrite e) = true := by
    rw [htr, takeWhile_append_stop _ S _ rest
      (List.all_eq_true.mpr (fun e he => by simp [(hSfacts e he).1])) (by rfl)]
    exact List.all_eq_true.mpr (fun e he => by simp [(hSfacts e he).2.1])
  rcases hcase with ⟨hfb, hrest, _⟩ | ⟨hfb, L, wevs, hrw, hL, hw, _⟩
  · have hra : rest.filter Event.isAudit = [] := by
      rw [List.filter_eq_nil_iff]
      intro e he
      have h1 := (List.all_eq_true.mp hrest) e he
      rw [Bool.and_eq_true] at h1
      simp [isWrite_class e h1.1]
    refine ⟨?_, htw, ?_⟩
    · rw [htr, hfb]
      simp [List.filter_append, hSa, hra, List.filter_cons, Event.isAudit, Event.eidOf]
    · rw [htr]
      rw [List.all_eq_true]
      intro e he
      rw [List.mem_filter] at he
      rcases List.mem_append.mp he.1 with heS | heR
      · exact absurd he.2 (by simp [(hSfacts e heS).2.2])
      · rcases heR with _ | ⟨_, heR⟩
        · exact absurd he.2 (by simp [Event.isDerivedWrite])
        · have h1 := (List.all_eq_true.mp hrest) e heR
          rw [Bool.and_eq_true, Bool.or_eq_true] at h1
          rcases h1.2 with hnd | heid
          · exact absurd he.2 (by simp_all)
          · simp [heid]
  · have hLfacts : ∀ e ∈ L, Event.isAudit e = false ∧ Event.isWrite e = false ∧
        Event.isDerivedWrite e = false := by
      intro e he
      have h1 := (List.all_eq_true.mp hL) e he
      rw [Bool.and_eq_true] at h1
      exact isLegacyCall_class e h1.1
    have hwa : wevs.filter Event.isAudit = [] := by
      rw [List.filter_eq_nil_iff]
      intro e he
      have h1 := (List.all_eq_true.mp hw) e he
      rw [Bool.and_eq_true] at h1
      simp [isWrite_class e h1.1]
    have hLa : L.filter Event.isAudit = [] := by
      rw [List.filter_eq_nil_iff]
      intro e he
      simp [(hLfacts e he).1]
    refine ⟨?_, htw, ?_⟩
    · rw [htr, hfb, hrw]
      simp [List.filter_append, hSa, hLa, hwa, List.filter_cons, Event.isAudit,
        Event.eidOf]
    · rw [htr, hrw]
      rw [List.all_eq_true]
      intro e he
      rw [List.mem_filter] at he
      rcases List.mem_append.mp he.1 with heS | heR
      · exact absurd he.2 (by simp [(hSfacts e heS).2.2])
      · rcases heR with _ | ⟨_, heR⟩
        · exact absurd he.2 (by simp [Event.isDerivedWrite])
        · rcases List.mem_append.mp heR with heL | heW
          · exact absurd he.2 (by simp [(hLfacts e heL).2.2])
          · rcases heW with _ | ⟨_, heW⟩
            · exact absurd he.2 (by simp [Event.isDerivedWrite])
            · have h1 := (List.all_eq_true.mp hw) e heW
              rw [Bool.and_eq_true, Bool.or_eq_true] at h1
              rcases h1.2 with hnd | heid
              · exact absurd he.2 (by simp_all)
              · simp [heid]

/-- Claim C9, counterexample.  A direct-column result whose single value
is the empty string — a null-like value by the code's own
`update_output_table` filter — is still written to the source table: the
direct-column UPDATE path never checks meaningfulness. -/
theorem C9_null_write_counterexample :
    meaningfulVal (.vStr "") = false ∧
    (process_and_save stratZh (fun _ => none) cfgZh rowA orcEmptyString
        dbEmpty).2.2.1.filter Event.isWrite =
      [.directWrite "documents" "summary_zh" (some 1) "a1b2c3" (.vStr "") none] :=
  ⟨rfl, rfl⟩

/-- Claim C9, amended.  The null-result suppression holds only on the
derived-table path: `update_output_table` drops null-like values (None,
empty string, "null" in any case, empty list/dict) and, when nothing
meaningful remains, writes no row and leaves the state unchanged;
otherwise it writes exactly the meaningful serialized data.  A non-truthy
(error or all-falsy) result on the legacy path appends only the audit
row.  But the direct-column `update_database` UPDATE is unconditional —
it writes whatever value it is handed, null-like or not. -/
theorem C9_write_suppression_amended :
    ∀ (st : DbState) (cfg : PipeCfg) (r : RowResult) (t kc kv : String)
      (od : List (String × PyVal)) (eid model : Option String)
      (tb c : String) (rs : List DirectUpdate),
      (∀ st2 wevs, update_output_table st t kc kv od eid model = .ok (st2, wevs) →
        (od.filter (fun p => meaningfulVal p.2) = [] → wevs = [] ∧ st2 = st) ∧
        ∀ e ∈ wevs, ∃ m ins,
          e = .derivedWrite t kv m eid
            ((od.filter (fun p => meaningfulVal p.2)).map (fun p => (p.1, serializeVal p.2)))
            ins ∧
          od.filter (fun p => meaningfulVal p.2) ≠ []) ∧
      (r.updatedTruthy = false →
        (legacy_store cfg r st).2.1 =
          [.auditAppend (some r.enrichment_id) r.sha1 cfg.ename cfg.model]) ∧
      ((update_database st tb c rs).2 =
        rs.map (fun u => .directWrite tb c u.rowid u.sha1 u.updated u.eid)) := by
  intro st cfg r t kc kv od eid model tb c rs
  refine ⟨?_, ?_, rfl⟩
  · intro st2 wevs h
    rcases update_output_table_spec _ _ _ _ _ _ _ _ _ h with ⟨hw, hf, hst⟩ | ⟨m, ins, hw, hne⟩
    · exact ⟨fun _ => ⟨hw, hst⟩, fun e he => by rw [hw] at he; cases he⟩
    · refine ⟨fun hnil => absurd hnil hne, fun e he => ?_⟩
      rw [hw] at he
      rcases he with _ | ⟨_, he⟩
      · exact ⟨m, ins, rfl, hne⟩
      · cases he
  · intro ht
    obtain ⟨wevs, hsv, _, _, himp⟩ := legacy_store_spec cfg r st
    rw [hsv, himp ht]

/-- With sha1 keying, every event of one row task touches the row's sha1
or the `NO_KEY` placeholder. -/
theorem process_and_save_sha1 (strat : EnrichmentStrategy)
    (conv : String → Option (String → String)) (cfg : PipeCfg) (row : Row)
    (orc : RowOracles) (st : DbState)
    (hkc : cfg.key_column = "sha1") (hks : strat.key_column = "sha1") :
    ((process_and_save strat conv cfg row orc st).2.2.1.all
      (fun e => Event.sha1Of e == row.sha1D || Event.sha1Of e == "NO_KEY")) = true := by
  obtain ⟨S, rest, htr, hS, hcase⟩ := process_and_save_spine strat conv cfg row orc st
  rw [htr, List.all_append, Bool.and_eq_true]
  refine ⟨all_weaken (fun e he => by rw [Bool.and_eq_true] at he; simp [he.2]) hS, ?_⟩
  rw [List.all_cons, Bool.and_eq_true]
  refine ⟨by simp [Event.sha1Of], ?_⟩
  rcases hcase with ⟨_, _, hsha⟩ | ⟨_, L, wevs, hrw, hL, _, hsha⟩
  · exact all_weaken (fun e he => by simp [he]) (hsha hks)
  · rw [hrw, List.all_append, Bool.and_eq_true]
    refine ⟨all_weaken (fun e he => by rw [Bool.and_eq_true] at he; simp [he.2]) hL, ?_⟩
    rw [List.all_cons, Bool.and_eq_true]
    exact ⟨by simp [Event.sha1Of], hsha hkc⟩

/-- With sha1 keying, every event of the per-row fan-out touches the sha1
of one of the processed rows or the `NO_KEY` placeholder. -/
theorem runRows_sha1 (strat : EnrichmentStrategy)
    (conv : String → Option (String → String)) (cfg : PipeCfg)
    (orcs : Nat → RowOracles) (hkc : cfg.key_column = "sha1")
    (hks : strat.key_column = "sha1") :
    ∀ (rows : List Row) (i : Nat) (st : DbState),
      ((runRows strat conv cfg orcs rows i st).2.2.all
        (fun e => rows.any (fun r2 => Event.sha1Of e == r2.sha1D) ||
          (Event.sha1Of e == "NO_KEY"))) = true := by
  intro rows
  induction rows with
  | nil => intro i st; rfl
  | cons row rest ih =>
    intro i st
    unfold runRows
    dsimp only
    rw [List.all_append, Bool.and_eq_true]
    constructor
    · refine all_weaken (fun e he => ?_) (process_and_save_sha1 strat conv cfg row
        (orcs i) st hkc hks)
      rw [Bool.or_eq_true] at he
      rcases he with he | he
      · simp [List.any_cons, he]
      · simp [he]
    · refine all_weaken (fun e he => ?_) (ih (i + 1) _)
      rw [Bool.or_eq_true] at he
      rcases he with he | he
      · simp [List.any_cons, he]
      · simp [he]

/-- Claim C1.  A row whose (sha1, enrichment_name, model_used) triple has
an audit record is marked skipped under overwrite=false: a skip entry is
produced for it, and no event of the batch — provider call, audit append
or projected write — touches its sha1. -/
theorem C1_audit_skip :
    ∀ (strat : EnrichmentStrategy) (conv : String → Option (String → String))
      (cfg : PipeCfg) (results : List Row) (orcs : Nat → RowOracles)
      (st : DbState) (row : Row),
      row ∈ results →
      row.sha1D ≠ "NO_SHA1" →
      row.sha1D ≠ "NO_KEY" →
      st.auditHas row.sha1D cfg.ename cfg.model = true →
      cfg.key_column = "sha1" →
      strat.key_column = "sha1" →
      ((∃ e ∈ (process_batch strat conv cfg results false orcs st).1,
          e.rowid = row.rowid ∧ e.sha1 = row.sha1D) ∧
       (∀ ev ∈ (process_batch strat conv cfg results false orcs st).2.2.2,
          Event.sha1Of ev ≠ row.sha1D)) := by
  intro strat conv cfg results orcs st row h1 h2 h3 h4 hkc hks
  have hentry : ∀ r2 : Row, r2 ∈ results → r2.sha1D = row.sha1D →
      (⟨r2.rowid, r2.sha1D, .vStr "already processed (enrichment_responses)"⟩ : SkipEntry) ∈
        auditSkip st results cfg.ename cfg.model := by
    intro r2 hr2 hsha
    unfold auditSkip
    refine List.mem_filterMap.mpr ⟨r2, hr2, ?_⟩
    rw [if_pos ⟨by rw [hsha]; exact h2, by rw [hsha]; exact h4⟩]
  have hskip : ∀ r2 : Row, r2 ∈ results → r2.sha1D = row.sha1D →
      (⟨r2.rowid, r2.sha1D, .vStr "already processed (enrichment_responses)"⟩ : SkipEntry) ∈
        batchSkips st cfg results false := by
    intro r2 hr2 hsha
    unfold batchSkips
    rw [if_neg (by simp)]
    exact List.mem_append.mpr (Or.inl (hentry r2 hr2 hsha))
  constructor
  · exact ⟨_, hskip row h1 rfl, rfl, rfl⟩
  · intro ev hev hevsha
    unfold process_batch at hev
    dsimp only at hev
    have hall := runRows_sha1 strat conv cfg orcs hkc hks
      (rowsToProcess results (batchSkips st cfg results false)) 0 st
    have h5 := (List.all_eq_true.mp hall) ev hev
    rw [Bool.or_eq_true] at h5
    rcases h5 with h5 | h5
    · rw [List.any_eq_true] at h5
      obtain ⟨r2, hr2mem, hr2sha⟩ := h5
      rw [beq_iff_eq, hevsha] at hr2sha
      unfold rowsToProcess at hr2mem
      rw [List.mem_filter] at hr2mem
      obtain ⟨hr2res, hr2pred⟩ := hr2mem
      have he2 := hskip r2 hr2res hr2sha.symm
      simp at hr2pred
      exact hr2pred _ he2 rfl rfl
    · rw [beq_iff_eq, hevsha] at h5
      exact h3 h5

/-- Claim C1, witness: a one-row batch whose sha1 triple is already
audited is skipped and produces no events. -/
theorem C1_audit_skip_witness :
    (rowA ∈ [rowA] ∧ rowA.sha1D ≠ "NO_SHA1" ∧ rowA.sha1D ≠ "NO_KEY" ∧
      dbWithAudit.auditHas rowA.sha1D cfgZh.ename cfgZh.model = true ∧
      cfgZh.key_column = "sha1" ∧ stratZh.key_column = "sha1") ∧
    ((∃ e ∈ (process_batch stratZh (fun _ => none) cfgZh [rowA] false
        (fun _ => orcAllEnglish) dbWithAudit).1,
        e.rowid = rowA.rowid ∧ e.sha1 = rowA.sha1D) ∧
     (∀ ev ∈ (process_batch stratZh (fun _ => none) cfgZh [rowA] false
        (fun _ => orcAllEnglish) dbWithAudit).2.2.2,
        Event.sha1Of ev ≠ rowA.sha1D)) :=
  ⟨⟨List.mem_singleton.mpr rfl, by decide, by decide, rfl, rfl, rfl⟩,
   C1_audit_skip stratZh (fun _ => none) cfgZh [rowA] (fun _ => orcAllEnglish)
     dbWithAudit rowA (List.mem_singleton.mpr rfl) (by decide) (by decide) rfl rfl rfl⟩

/-- Claim C10.  With overwrite=false a row is also skipped when its
output location already holds data, even with no audit record: in
separate-table mode when the derived table has a row for the key (and
model, when the table has a model_used column), and in direct-column mode
when the source row's output column holds a truthy value.  In both modes
a skip entry is produced for the row and no event of the batch touches
its sha1. -/
theorem C10_output_data_skip :
    ∀ (strat : EnrichmentStrategy) (conv : String → Option (String → String))
      (cfg : PipeCfg) (results : List Row) (orcs : Nat → RowOracles)
      (st : DbState) (row : Row),
      row ∈ results →
      row.sha1D ≠ "NO_SHA1" →
      row.sha1D ≠ "NO_KEY" →
      (∀ r2 ∈ results, r2.sha1D = row.sha1D → r2 = row) →
      cfg.key_column = "sha1" →
      strat.key_column = "sha1" →
      ((∀ ot td, cfg.output_table = some ot →
          st.tables.lookup ot = some td →
          (if td.has_model_column then
             td.rows.any (fun dr => dr.key == row.keyD cfg.key_column &&
               dr.model_used == some cfg.model)
           else td.rows.any (fun dr => dr.key == row.keyD cfg.key_column)) = true →
          ((∃ e ∈ (process_batch strat conv cfg results false orcs st).1,
              e.rowid = row.rowid ∧ e.sha1 = row.sha1D) ∧
           (∀ ev ∈ (process_batch strat conv cfg results false orcs st).2.2.2,
              Event.sha1Of ev ≠ row.sha1D))) ∧
       (∀ c pv, cfg.output_table = none →
          cfg.output_cols.headD none = some c →
          row.lookupCol c = some pv →
          pv.truthy = true →
          ((∃ e ∈ (process_batch strat conv cfg results false orcs st).1,
              e.rowid = row.rowid ∧ e.sha1 = row.sha1D) ∧
           (∀ ev ∈ (process_batch strat conv cfg results false orcs st).2.2.2,
              Event.sha1Of ev ≠ row.sha1D)))) := by
  intro strat conv cfg results orcs st row h1 h2 h3 huniq hkc hks
  have main : (∃ e ∈ batchSkips st cfg results false,
      e.rowid = row.rowid ∧ e.sha1 = row.sha1D) →
      ((∃ e ∈ (process_batch strat conv cfg results false orcs st).1,
          e.rowid = row.rowid ∧ e.sha1 = row.sha1D) ∧
       (∀ ev ∈ (process_batch strat conv cfg results false orcs st).2.2.2,
          Event.sha1Of ev ≠ row.sha1D)) := by
    intro hex
    obtain ⟨e0, he0, he0r, he0s⟩ := hex
    refine ⟨⟨e0, he0, he0r, he0s⟩, ?_⟩
    intro ev hev hevsha
    unfold process_batch at hev
    dsimp only at hev
    have hall := runRows_sha1 strat conv cfg orcs hkc hks
      (rowsToProcess results (batchSkips st cfg results false)) 0 st
    have h5 := (List.all_eq_true.mp hall) ev hev
    rw [Bool.or_eq_true] at h5
    rcases h5 with h5 | h5
    · rw [List.any_eq_true] at h5
      obtain ⟨r2, hr2mem, hr2sha⟩ := h5
      rw [beq_iff_eq, hevsha] at hr2sha
      unfold rowsToProcess at hr2mem
      rw [List.mem_filter] at hr2mem
      obtain ⟨hr2res, hr2pred⟩ := hr2mem
      have hr2row : r2 = row := huniq r2 hr2res hr2sha.symm
      subst hr2row
      simp at hr2pred
      exact hr2pred e0 he0 he0r he0s
    · rw [beq_iff_eq, hevsha] at h5
      exact h3 h5
  have hs1entry : st.auditHas row.sha1D cfg.ename cfg.model = true →
      (⟨row.rowid, row.sha1D, .vStr "already processed (enrichment_responses)"⟩ : SkipEntry) ∈
        auditSkip st results cfg.ename cfg.model := by
    intro hA
    unfold auditSkip
    exact List.mem_filterMap.mpr ⟨row, h1, by rw [if_pos ⟨h2, hA⟩]⟩
  have hnocontain : st.auditHas row.sha1D cfg.ename cfg.model = false →
      ((auditSkip st results cfg.ename cfg.model).map
        (fun e => e.sha1)).contains row.sha1D = false := by
    intro hA
    by_contra hc
    rw [Bool.not_eq_false, List.contains_eq_any_beq, List.any_eq_true] at hc
    obtain ⟨x, hx, hax⟩ := hc
    rw [beq_iff_eq] at hax
    rw [List.mem_map] at hx
    obtain ⟨e1, he1, hxe⟩ := hx
    unfold auditSkip at he1
    rw [List.mem_filterMap] at he1
    obtain ⟨r3, hr3, hr3some⟩ := he1
    dsimp only at hr3some
    split at hr3some
    · rename_i hcnd
      cases hr3some
      have hr3sha : r3.sha1D = row.sha1D := by
        rw [hax]
        exact hxe
      rw [hr3sha] at hcnd
      rw [hA] at hcnd
      exact Bool.false_ne_true hcnd.2
    · cases hr3some
  have hkd : row.keyD "sha1" = row.sha1D := by
    rcases hrs : row.sha1 with _ | s
    · exact absurd (by simp [Row.sha1D, hrs]) h2
    · simp [Row.keyD, Row.lookupCol, Row.sha1D, hrs]
  constructor
  · intro ot td hot htd hhit
    refine main ?_
    unfold batchSkips
    rw [if_neg (by simp), hot]
    dsimp only
    by_cases hA : st.auditHas row.sha1D cfg.ename cfg.model = true
    · exact ⟨_, List.mem_append.mpr (Or.inl (hs1entry hA)), rfl, rfl⟩
    · rw [Bool.not_eq_true] at hA
      refine ⟨⟨row.rowid, row.sha1D, .vStr ("exists in " ++ ot)⟩,
        List.mem_append.mpr (Or.inr ?_), rfl, rfl⟩
      unfold tableSkip
      rw [htd]
      refine List.mem_filterMap.mpr ⟨row, h1, ?_⟩
      dsimp only
      rw [if_neg (by rw [hnocontain hA]; exact Bool.false_ne_true)]
      rw [if_pos hhit]
  · intro c pv hot hoc hpv htru
    refine main ?_
    unfold batchSkips
    rw [if_neg (by simp), hot]
    dsimp only
    by_cases hA : st.auditHas row.sha1D cfg.ename cfg.model = true
    · exact ⟨_, List.mem_append.mpr (Or.inl (hs1entry hA)), rfl, rfl⟩
    · rw [Bool.not_eq_true] at hA
      refine ⟨⟨row.rowid, row.sha1D, pv⟩, List.mem_append.mpr (Or.inr ?_), rfl, rfl⟩
      unfold directSkip
      refine List.mem_filterMap.mpr ⟨row, h1, ?_⟩
      dsimp only
      rw [hoc]
      dsimp only
      rw [hpv]
      dsimp only
      rw [if_pos ⟨htru, by rw [hnocontain hA]; simp⟩]

/-- Claim C10, witness: a one-row batch in separate-table mode whose
derived table already has a row for the key and model is skipped with no
events, although no audit record exists. -/
theorem C10_output_data_skip_witness :
    (dbWithDerivedRow.auditHas rowA.sha1D cfgTopics.ename cfgTopics.model = false ∧
     cfgTopics.output_table = some "analysis") ∧
    ((∃ e ∈ (process_batch stratTopics (fun _ => none) cfgTopics [rowA] false
        (fun _ => orcDupTopics) dbWithDerivedRow).1,
        e.rowid = rowA.rowid ∧ e.sha1 = rowA.sha1D) ∧
     (∀ ev ∈ (process_batch stratTopics (fun _ => none) cfgTopics [rowA] false
        (fun _ => orcDupTopics) dbWithDerivedRow).2.2.2,
        Event.sha1Of ev ≠ rowA.sha1D)) :=
  ⟨⟨rfl, rfl⟩,
   (C10_output_data_skip stratTopics (fun _ => none) cfgTopics [rowA]
      (fun _ => orcDupTopics) dbWithDerivedRow rowA (List.mem_singleton.mpr rfl)
      (by decide) (by decide) (fun r2 hr2 _ => List.mem_singleton.mp hr2) rfl rfl).1
     "analysis" ⟨true, [⟨"a1b2c3", some "gpt-4o-mini", some "E9", [("topics", .vStr "x")]⟩]⟩
     rfl rfl (by decide)⟩

/-! ### Query planner lemmas (claim C7) -/

/-- A case-insensitive literal matches the very text it was lowercased
from. -/
theorem litMatch_self : ∀ (cd rest : List Char),
    litMatch (cd.map lowerC) (cd ++ rest) = some (cd, rest) := by
  intro cd
  induction cd with
  | nil => intro rest; rfl
  | cons c t ih =>
    intro rest
    show litMatch (lowerC c :: t.map lowerC) (c :: (t ++ rest)) = some (c :: t, rest)
    unfold litMatch
    rw [if_pos rfl, ih rest]
    rfl

/-- A match at the start of the text makes the search succeed. -/
theorem searchPat_here {p : Pat} {s : List Char} (h : (matchPat p s).isSome = true) :
    searchPat p s = true := by
  unfold searchPat
  cases s with
  | nil =>
    unfold findFirst
    rcases hm : matchPat p [] with _ | x
    · rw [hm] at h; cases h
    · simp [hm]
  | cons c cs =>
    unfold findFirst
    rcases hm : matchPat p (c :: cs) with _ | x
    · rw [hm] at h; cases h
    · simp [hm]

/-- Search succeeds on any left extension of a text it succeeds on. -/
theorem searchPat_append_right (p : Pat) (s t : List Char)
    (h : searchPat p t = true) : searchPat p (s ++ t) = true := by
  induction s with
  | nil => simpa using h
  | cons c s' ih =>
    show searchPat p (c :: (s' ++ t)) = true
    unfold searchPat at ih ⊢
    unfold findFirst
    rcases hm : matchPat p (c :: (s' ++ t)) with _ | x
    · simp [ih]
    · simp

/-- Substring containment is preserved by left extension. -/
theorem isSubstr_append_right (p s t : List Char) (h : isSubstr p t = true) :
    isSubstr p (s ++ t) = true := by
  rw [isSubstr_infix_iff] at h ⊢
  exact h.trans (List.suffix_append s t).isInfix

/-- Case-insensitive containment is preserved by left extension. -/
theorem containsCI_append_right (pat s t : String)
    (h : containsCI pat t = true) : containsCI pat (s ++ t) = true := by
  unfold containsCI at h ⊢
  rw [String.data_append, List.map_append]
  exact isSubstr_append_right _ _ _ h

/-- The word `rowid` is found, with word boundaries, in any string ending
in ` ORDER BY rowid`. -/
theorem rowid_word_in_suffix (x : String) :
    containsWordCI ("rowid") (x ++ " ORDER BY rowid") = true := by
  unfold containsWordCI
  rw [String.data_append]
  have htail : ∀ pc : Option Char,
      containsWordAux (("rowid").data.map lowerC) pc ((" ORDER BY rowid").data) = true := by
    intro pc
    show (wordAt (("rowid").data.map lowerC) pc ((" ORDER BY rowid").data) ||
      containsWordAux (("rowid").data.map lowerC) (some ' ') (("ORDER BY rowid").data)) = true
    rw [show containsWordAux (("rowid").data.map lowerC) (some ' ')
      (("ORDER BY rowid").data) = true from rfl]
    simp
  have main : ∀ (s : List Char) (prev : Option Char),
      containsWordAux (("rowid").data.map lowerC) prev
        (s ++ (" ORDER BY rowid").data) = true := by
    intro s
    induction s with
    | nil => intro prev; exact htail prev
    | cons c t ih =>
      intro prev
      show (wordAt (("rowid").data.map lowerC) prev (c :: (t ++ (" ORDER BY rowid").data)) ||
        containsWordAux (("rowid").data.map lowerC) (some c)
          (t ++ (" ORDER BY rowid").data)) = true
      rw [ih (some c)]
      simp
  exact main x.data none

/-- Claim C7, counterexample.  The query `SELECT mylimit FROM documents`
has no ORDER BY clause, yet the plan leaves it unchanged: the planner
tests `'LIMIT' in query.upper()`, the column name `mylimit` contains the
substring `LIMIT`, and the chosen `re.sub` rewrite of a real
`\s+LIMIT\s+` clause finds nothing — so no `ORDER BY rowid` is
appended. -/
theorem C7_limit_substring_counterexample :
    containsCI ("ORDER BY") ("SELECT mylimit FROM documents") = false ∧
    containsCI ("LIMIT") ("SELECT mylimit FROM documents") = true ∧
    plan_query ("SELECT mylimit FROM documents") ("sentiment") true none =
      "SELECT mylimit FROM documents" ∧
    containsCI ("ORDER BY")
      (plan_query ("SELECT mylimit FROM documents") ("sentiment") true none) = false :=
  ⟨rfl, rfl, rfl, rfl⟩

/-- Claim C7, amended.  The NULL-filtered plan selects exactly the
NULL-valued rows of the base result set, a subset of the unfiltered plan.
For a query with no WHERE clause and no existing `col IS NULL` filter,
append mode plans `q ++ " WHERE col IS NULL ORDER BY rowid"`, provided
the filtered statement contains neither `ORDER BY` nor `LIMIT` as a
substring (the counterexample shows the substring tests misfire on names
like `mylimit`); overwrite mode plans `q ++ " ORDER BY rowid"` under the
same caveat.  Replanning either planned statement returns it unchanged. -/
theorem C7_query_rewrite_amended :
    ∀ (q col : String) (base : List SqlRow),
      (plannedResultSet base (some col) = base.filter (rowColIsNull col) ∧
       ∀ r ∈ plannedResultSet base (some col), r ∈ plannedResultSet base none) ∧
      (containsCI ("WHERE") q = false →
       searchPat (colIsNullPat col) q.data = false →
       containsCI ("ORDER BY") (q ++ " WHERE " ++ col ++ " IS NULL") = false →
       containsCI ("LIMIT") (q ++ " WHERE " ++ col ++ " IS NULL") = false →
       plan_query q col false none = q ++ " WHERE " ++ col ++ " IS NULL ORDER BY rowid") ∧
      (containsCI ("ORDER BY") q = false →
       containsCI ("LIMIT") q = false →
       searchPat (nullPat1 col) q.data = false →
       searchPat (nullPat2 col) q.data = false →
       searchPat (nullPat3 col) q.data = false →
       plan_query q col true none = q ++ " ORDER BY rowid") ∧
      (plan_query (q ++ " WHERE " ++ col ++ " IS NULL ORDER BY rowid") col false none =
        q ++ " WHERE " ++ col ++ " IS NULL ORDER BY rowid") ∧
      (searchPat (nullPat1 col) ((q ++ " ORDER BY rowid").data) = false →
       searchPat (nullPat2 col) ((q ++ " ORDER BY rowid").data) = false →
       searchPat (nullPat3 col) ((q ++ " ORDER BY rowid").data) = false →
       plan_query (q ++ " ORDER BY rowid") col true none = q ++ " ORDER BY rowid") := by
  intro q col base
  refine ⟨⟨rfl, fun r hr => ?_⟩, ?_, ?_, ?_, ?_⟩
  · exact (List.filter_sublist base).subset hr
  · intro hW hN hOrd hLim
    unfold plan_query
    have hanf : apply_null_filters q col false = q ++ " WHERE " ++ col ++ " IS NULL" := by
      unfold apply_null_filters
      simp [hN, hW]
    rw [hanf]
    have haol : add_order_and_limit (q ++ " WHERE " ++ col ++ " IS NULL") none =
        (q ++ " WHERE " ++ col ++ " IS NULL") ++ " ORDER BY rowid" := by
      unfold add_order_and_limit
      simp [hOrd, hLim]
    rw [haol]
    have her : ensure_rowid_in_query
        ((q ++ " WHERE " ++ col ++ " IS NULL") ++ " ORDER BY rowid") =
        (q ++ " WHERE " ++ col ++ " IS NULL") ++ " ORDER BY rowid" := by
      unfold ensure_rowid_in_query
      rw [if_pos (rowid_word_in_suffix _)]
    rw [her, String.append_assoc]
    rfl
  · intro hOrd hLim hn1 hn2 hn3
    unfold plan_query
    have hanf : apply_null_filters q col true = q := by
      unfold apply_null_filters
      simp [hn1, hn2, hn3]
    rw [hanf]
    have haol : add_order_and_limit q none = q ++ " ORDER BY rowid" := by
      unfold add_order_and_limit
      simp [hOrd, hLim]
    rw [haol]
    unfold ensure_rowid_in_query
    rw [if_pos (rowid_word_in_suffix _)]
  · unfold plan_query
    have hmp : (matchPat (colIsNullPat col)
        (col.data ++ (" IS NULL ORDER BY rowid").data)).isSome = true := by
      show (matchPat (Tok.lit (colL col) :: [Tok.ws, Tok.lit (("is").data), Tok.ws,
        Tok.lit (("null").data)]) (col.data ++ (" IS NULL ORDER BY rowid").data)).isSome = true
      unfold matchPat
      rw [show matchTok (Tok.lit (colL col)) (col.data ++ (" IS NULL ORDER BY rowid").data) =
        litMatch (col.data.map lowerC) (col.data ++ (" IS NULL ORDER BY rowid").data) from rfl]
      rw [litMatch_self]
      rfl
    have hsearch : searchPat (colIsNullPat col)
        ((q ++ " WHERE " ++ col ++ " IS NULL ORDER BY rowid").data) = true := by
      have h1 := searchPat_append_right (colIsNullPat col) ((q ++ " WHERE ").data)
        (col.data ++ (" IS NULL ORDER BY rowid").data) (searchPat_here hmp)
      rw [show ((q ++ " WHERE " ++ col ++ " IS NULL ORDER BY rowid").data) =
        ((q ++ " WHERE ").data ++ (col.data ++ (" IS NULL ORDER BY rowid").data)) from by
          simp [String.data_append, List.append_assoc]]
      exact h1
    have hfe : ¬(false = true) := by simp
    have hanf : apply_null_filters (q ++ " WHERE " ++ col ++ " IS NULL ORDER BY rowid")
        col false = q ++ " WHERE " ++ col ++ " IS NULL ORDER BY rowid" := by
      unfold apply_null_filters
      rw [if_neg hfe, hsearch]
      simp
    rw [hanf]
    have hord : containsCI ("ORDER BY")
        (q ++ " WHERE " ++ col ++ " IS NULL ORDER BY rowid") = true :=
      containsCI_append_right _ (q ++ " WHERE " ++ col) (" IS NULL ORDER BY rowid") rfl
    have haol : add_order_and_limit (q ++ " WHERE " ++ col ++ " IS NULL ORDER BY rowid")
        none = q ++ " WHERE " ++ col ++ " IS NULL ORDER BY rowid" := by
      unfold add_order_and_limit
      dsimp only
      rw [hord]
      simp
    rw [haol]
    have hrw : containsWordCI ("rowid")
        (q ++ " WHERE " ++ col ++ " IS NULL ORDER BY rowid") = true := by
      rw [show (q ++ " WHERE " ++ col ++ " IS NULL ORDER BY rowid" : String) =
        ((q ++ " WHERE " ++ col ++ " IS NULL") ++ " ORDER BY rowid") from by
          rw [String.append_assoc ((q ++ " WHERE ") ++ col) (" IS NULL") (" ORDER BY rowid")]
          rfl]
      exact rowid_word_in_suffix _
    unfold ensure_rowid_in_query
    rw [if_pos hrw]
  · intro hn1 hn2 hn3
    unfold plan_query
    have hfe : ¬(false = true) := by simp
    have hanf : apply_null_filters (q ++ " ORDER BY rowid") col true =
        q ++ " ORDER BY rowid" := by
      unfold apply_null_filters
      rw [if_pos rfl]
      dsimp only
      rw [hn1]
      simp only [if_neg hfe]
      rw [hn2]
      simp only [if_neg hfe]
      rw [hn3]
      simp only [if_neg hfe]
    rw [hanf]
    have hord : containsCI ("ORDER BY") (q ++ " ORDER BY rowid") = true :=
      containsCI_append_right _ q (" ORDER BY rowid") rfl
    have haol : add_order_and_limit (q ++ " ORDER BY rowid") none =
        q ++ " ORDER BY rowid" := by
      unfold add_order_and_limit
      dsimp only
      rw [hord]
      simp
    rw [haol]
    unfold ensure_rowid_in_query
    rw [if_pos (rowid_word_in_suffix _)]

/-- Claim C7, witness: for the clean query
`SELECT rowid, content FROM documents` the two planned statements are as
the amended theorem states. -/
theorem C7_query_rewrite_amended_witness :
    plan_query ("SELECT rowid, content FROM documents") ("sentiment") false none =
      "SELECT rowid, content FROM documents WHERE sentiment IS NULL ORDER BY rowid" ∧
    plan_query ("SELECT rowid, content FROM documents") ("sentiment") true none =
      "SELECT rowid, content FROM documents ORDER BY rowid" := by
  constructor
  · have h := (C7_query_rewrite_amended ("SELECT rowid, content FROM documents")
      ("sentiment") []).2.1 (by rfl) (by rfl) (by rfl) (by rfl)
    rw [h]
    rfl
  · have h := (C7_query_rewrite_amended ("SELECT rowid, content FROM documents")
      ("sentiment") []).2.2.1 (by rfl) (by rfl) (by rfl) (by rfl) (by rfl)
    rw [h]
    rfl

end Doctrail
